import Mathlib

/-!
# Rule compilation of the `template` plugin (`plugin/template/setup.go`)

A shallow embedding of `templateParse`, the function that turns the `template`
blocks of a server block into the ordered rule list of the handler, and of
`setupTemplate`, which registers that handler.  `templateParse` is embedded on
values, and a second time (`templateParseS`) with the string slices of lines
63-70 in memory, to state what it does to `c.ServerBlockKeys`.

The controller hands the function tokens; a block is modelled by the tokens on
its `template` line and the token lines between its braces (the brace tokens
themselves delimit the block and are not arguments).  Library functions whose
code lives outside the file (the DNS vocabularies, the regular-expression and
text-template compilers, the CIDR parser) are parameters collected in `Env`.
-/

namespace Template

/-! ## Addresses, prefixes and the client range matcher -/

/-- An address as `net.IP` holds it, up to the `To4` canonical form: an IPv4
address (also when written in its IPv4-in-IPv6 form) or a proper IPv6 address,
with its numeric value. -/
inductive IP where
  | v4 (a : Nat)
  | v6 (a : Nat)
deriving DecidableEq, Repr

/-- A network prefix as `net.IPNet` holds it: the network address and the
number of leading one bits of the mask. -/
structure IPNet where
  ip : IP
  ones : Nat
deriving DecidableEq, Repr

/-- The membership test of `net.IPNet`: the address is of the prefix's family
and agrees with the network address on the masked (leading `ones`) bits. -/
def IPNet.Contains (n : IPNet) (ip : IP) : Bool :=
  match n.ip, ip with
  | .v4 a, .v4 x => a % 2 ^ 32 / 2 ^ (32 - n.ones) == x % 2 ^ 32 / 2 ^ (32 - n.ones)
  | .v6 a, .v6 x => a % 2 ^ 128 / 2 ^ (128 - n.ones) == x % 2 ^ 128 / 2 ^ (128 - n.ones)
  | _, _ => false

/-- Modelled from the spec: the Client Range Matcher held in `template.ranger`
(the `template` type and the matcher are declared outside `setup.go`).  It is
a value that stores a set of prefixes; `entries` lists them in first-insertion
order, and the zero value stores none. -/
structure Ranger where
  entries : List IPNet
deriving DecidableEq, Repr

/-- Modelled from the spec: `insert(prefix)` of the Client Range Matcher,
idempotent on duplicates. -/
def Ranger.Insert (r : Ranger) (n : IPNet) : Ranger :=
  if n ∈ r.entries then r else ⟨r.entries ++ [n]⟩

/-- Modelled from the spec: `contains(address)` of the Client Range Matcher:
"any prefix contains the address". -/
def Ranger.Contains (r : Ranger) (ip : IP) : Bool :=
  r.entries.any (fun n => n.Contains ip)

/-! ## Strings -/

/-- The function `strings.ToLower` on the ASCII letters (the only characters
that lower-case to the letters of `any`). -/
def ToLower (s : String) : String :=
  ⟨s.data.map Char.toLower⟩

/-- Modelled from the spec: `plugin.Host(s).Normalize()` (`plugin/normalize.go`
is outside `setup.go`): the lower-cased, trailing-dot canonical form of a zone
name. -/
def Normalize (s : String) : String :=
  ToLower (if s.data.getLast? = some '.' then s else s ++ ".")

/-! ## The environment: library functions taken as parameters -/

/-- The library functions `templateParse` calls.  `Re` is the type of compiled
regular expressions (`*regexp.Regexp`), `Tm` the type of compiled text
templates (`*gotmpl.Template`). -/
structure Env (Re Tm : Type) where
  /-- The map `dns.StringToClass`. -/
  StringToClass : String → Option Nat
  /-- The map `dns.StringToType`. -/
  StringToType : String → Option Nat
  /-- The map `dns.StringToRcode`. -/
  StringToRcode : String → Option Int
  /-- The function `regexp.Compile`; an error carries its text. -/
  Compile : String → Except String Re
  /-- The function `regexp.MustCompile`, used on the constant `.*` only. -/
  MustCompile : String → Re
  /-- The call `gotmpl.New(name).Parse(text)`. -/
  Parse : String → String → Except String Tm
  /-- The function `net.ParseCIDR` on every string but the constant
  `0.0.0.0/0`; an error carries its text. -/
  parseCIDR : String → Except String IPNet
  /-- The method `fall.F.SetZonesFromArgs`: the receiver after the call. -/
  SetZonesFromArgs : List String → List String → List String

/-- The constant `dns.RcodeSuccess`. -/
def RcodeSuccess : Int := 0

/-- The network `net.ParseCIDR("0.0.0.0/0")` returns: the IPv4 zero address
under the empty mask. -/
def anyNet : IPNet := ⟨.v4 0, 0⟩

/-- The function `net.ParseCIDR`, network result only. -/
def ParseCIDR {Re Tm : Type} (env : Env Re Tm) (s : String) : Except String IPNet :=
  if s = "0.0.0.0/0" then .ok anyNet else env.parseCIDR s

/-! ## Data model -/

/-- The value `upstream.New()` returns. -/
structure Upstream where
deriving DecidableEq, Repr

/-- Modelled from the spec: the Rule (`template` struct, declared outside
`setup.go`) with the fields `templateParse` assigns.  `fall` is the zone list
of the fallthrough set; `ranger` is the rule's matcher, held in the field
itself and left at its zero value by the literal of line 73. -/
structure template (Re Tm : Type) where
  qclass : Nat
  qtype : Nat
  zones : List String
  regex : List Re := []
  answer : List Tm := []
  additional : List Tm := []
  authority : List Tm := []
  rcode : Int := RcodeSuccess
  fall : List String := []
  upstream : Option Upstream := none
  ranger : Ranger := ⟨[]⟩

/-- Modelled from the spec: the Dispatcher state (`Handler` struct, declared
outside `setup.go`) with the fields `templateParse` assigns. -/
structure Handler (Re Tm : Type) where
  Zones : List String := []
  Templates : List (template Re Tm) := []

/-- The errors of the controller: `c.ArgErr()` and `c.Errf(format, args...)`
with the arguments that are strings. -/
inductive Err where
  | ArgErr
  | Errf (format : String) (args : List String)
deriving DecidableEq, Repr

/-- One `template` block as the controller delivers it: the tokens that follow
`template` on its line, and the token lines between the braces (no lines when
the block has no braces or nothing between them). -/
structure Block where
  args : List String
  body : List (List String)
deriving DecidableEq, Repr

/-- The controller: the keys of the enclosing server block and the `template`
blocks in declaration order. -/
structure Controller where
  ServerBlockKeys : List String
  blocks : List Block
deriving DecidableEq, Repr

/-- The local state of one iteration of the outer loop: the rule under
construction and the `matchClients` slice. -/
structure St (Re Tm : Type) where
  t : template Re Tm
  matchClients : List IPNet := []

/-! ## `templateParse` -/

/-- The inner `for _, x := range args` loops: compile each argument and append
the result, returning at the first failure. -/
def appendAll {β : Type} (f : String → Except Err β) : List String → List β → Except Err (List β)
  | [], acc => .ok acc
  | a :: as, acc =>
    match f a with
    | .error e => .error e
    | .ok b => appendAll f as (acc ++ [b])

/-- The value of `c.Val()` after `c.RemainingArgs()` returned the non-empty
`args`: the last token of the line. -/
def lastVal (key : String) (args : List String) : String :=
  (args.getLast?).getD key

/-- The body of the `match-clients` loop for one token (lines 102-108). -/
def clientNet {Re Tm : Type} (env : Env Re Tm) (cidr : String) : Except Err IPNet :=
  let cidr := if ToLower cidr = "any" then "0.0.0.0/0" else cidr
  match ParseCIDR env cidr with
  | .error e => .error (.Errf "could not parse cidr: %s, %v" [cidr, e])
  | .ok network => .ok network

/-- The `switch c.Val()` of lines 82-169 on the tokens of one line, `key` being
the token `c.NextBlock()` loaded.  `rcode` reads one argument with
`c.NextArg()`; the next `c.NextBlock()` then loads the token after it, also
when that token is on the same line. -/
def directive {Re Tm : Type} (env : Env Re Tm) : List String → St Re Tm → Except Err (St Re Tm)
  | [], s => .ok s
  | key :: args, s =>
    if key = "match" then
      if args.length = 0 then .error .ArgErr else
      match appendAll (fun regex =>
          match env.Compile regex with
          | .error e => .error (.Errf "could not parse regex: %s, %v" [regex, e])
          | .ok r => .ok r) args s.t.regex with
      | .error e => .error e
      | .ok rs => .ok { s with t := { s.t with regex := rs } }
    else if key = "match-clients" then
      if args.length = 0 then .error .ArgErr else
      match appendAll (clientNet env) args s.matchClients with
      | .error e => .error e
      | .ok ns => .ok { s with matchClients := ns }
    else if key = "answer" then
      if args.length = 0 then .error .ArgErr else
      match appendAll (fun answer =>
          match env.Parse "answer" answer with
          | .error e => .error (.Errf "could not compile template: %s, %v" [lastVal key args, e])
          | .ok tmpl => .ok tmpl) args s.t.answer with
      | .error e => .error e
      | .ok ts => .ok { s with t := { s.t with answer := ts } }
    else if key = "additional" then
      if args.length = 0 then .error .ArgErr else
      match appendAll (fun additional =>
          match env.Parse "additional" additional with
          | .error e => .error (.Errf "could not compile template: %s, %v\n" [lastVal key args, e])
          | .ok tmpl => .ok tmpl) args s.t.additional with
      | .error e => .error e
      | .ok ts => .ok { s with t := { s.t with additional := ts } }
    else if key = "authority" then
      if args.length = 0 then .error .ArgErr else
      match appendAll (fun authority =>
          match env.Parse "authority" authority with
          | .error e => .error (.Errf "could not compile template: %s, %v\n" [lastVal key args, e])
          | .ok tmpl => .ok tmpl) args s.t.authority with
      | .error e => .error e
      | .ok ts => .ok { s with t := { s.t with authority := ts } }
    else if key = "rcode" then
      match args with
      | [] => .error .ArgErr
      | val :: more =>
        match env.StringToRcode val with
        | none => .error (.Errf "unknown rcode %s" [val])
        | some rcode => directive env more { s with t := { s.t with rcode := rcode } }
    else if key = "fallthrough" then
      .ok { s with t := { s.t with fall := env.SetZonesFromArgs s.t.fall args } }
    else if key = "upstream" then
      .ok { s with t := { s.t with upstream := some {} } }
    else .error .ArgErr

/-- The loop `for c.NextBlock()` of lines 81-170 over the lines of a block. -/
def body {Re Tm : Type} (env : Env Re Tm) : List (List String) → St Re Tm → Except Err (St Re Tm)
  | [], s => .ok s
  | line :: rest, s =>
    match directive env line s with
    | .error e => .error e
    | .ok s1 => body env rest s1

/-- Lines 47-70: the class token, the type token and the zone list. -/
def header {Re Tm : Type} (env : Env Re Tm) (keys : List String) (args : List String) :
    Except Err (Nat × Nat × List String) :=
  match args with
  | [] => .error .ArgErr
  | cv :: rest =>
    match env.StringToClass cv with
    | none => .error (.Errf "invalid query class %s" [cv])
    | some cls =>
      match rest with
      | [] => .error .ArgErr
      | tv :: zs =>
        match env.StringToType tv with
        | none => .error (.Errf "invalid RR class %s" [tv])
        | some qtype =>
          let zones := if zs.length = 0 then keys else zs
          .ok (cls, qtype, zones.map Normalize)

/-- The local variable `ranger` after the loop of lines 180-182: the copy
`ranger := t.ranger` of the rule's matcher, with the networks of `matchClients`
inserted. -/
def filledCopy {Re Tm : Type} (t : template Re Tm) (matchClients : List IPNet) : Ranger :=
  matchClients.foldl Ranger.Insert t.ranger

/-- Lines 175-183.  Line 177 inserts into the field `t.ranger` itself.  Line 179
copies the field into the local variable `ranger` and the loop of lines 180-182
inserts into that copy, which no later line reads or stores: the rule keeps the
matcher it had.  The constant of line 176 always parses, so its error branch is
never taken. -/
def fillRanger {Re Tm : Type} (env : Env Re Tm) (t : template Re Tm) (matchClients : List IPNet) :
    template Re Tm :=
  if matchClients.length = 0 then
    match ParseCIDR env "0.0.0.0/0" with
    | .ok any => { t with ranger := t.ranger.Insert any }
    | .error _ => t
  else
    let _ranger := filledCopy t matchClients
    t

/-- Lines 172-187: the defaults and the validation that close an iteration. -/
def finish {Re Tm : Type} (env : Env Re Tm) (s : St Re Tm) : Except Err (template Re Tm) :=
  let t := s.t
  let t := if t.regex.length = 0 then { t with regex := t.regex ++ [env.MustCompile ".*"] } else t
  let t := fillRanger env t s.matchClients
  if t.answer.length = 0 ∧ t.authority.length = 0 ∧ t.rcode = RcodeSuccess then
    .error (.Errf "no answer section for template found: %v" [])
  else .ok t

/-- Lines 73-187 for a block whose header gave `cls`, `qtype` and `zones`. -/
def rule {Re Tm : Type} (env : Env Re Tm) (cls qtype : Nat) (zones : List String)
    (lines : List (List String)) : Except Err (template Re Tm) :=
  match body env lines { t := { qclass := cls, qtype := qtype, zones := zones } } with
  | .error e => .error e
  | .ok s => finish env s

/-- One iteration of `for c.Next()` (lines 47-189): the handler after it and
the error it returns, if any. -/
def block {Re Tm : Type} (env : Env Re Tm) (keys : List String) (b : Block) (handler : Handler Re Tm) :
    Handler Re Tm × Option Err :=
  match header env keys b.args with
  | .error e => (handler, some e)
  | .ok (cls, qtype, zones) =>
    let handler := { handler with Zones := handler.Zones ++ zones }
    match rule env cls qtype zones b.body with
    | .error e => (handler, some e)
    | .ok t => ({ handler with Templates := handler.Templates ++ [t] }, none)

/-- The loop `for c.Next()` over the blocks still to read. -/
def blocks {Re Tm : Type} (env : Env Re Tm) (keys : List String) :
    List Block → Handler Re Tm → Handler Re Tm × Option Err
  | [], handler => (handler, none)
  | b :: rest, handler =>
    match block env keys b handler with
    | (handler, some e) => (handler, some e)
    | (handler, none) => blocks env keys rest handler

/-- The function `templateParse`: the handler and the error it returns. -/
def templateParse {Re Tm : Type} (env : Env Re Tm) (c : Controller) : Handler Re Tm × Option Err :=
  blocks env c.ServerBlockKeys c.blocks { Zones := [], Templates := [] }

/-- The Rule one block compiles to: lines 47-187 without the handler updates
(the function `block` appends exactly this Rule when it succeeds). -/
def compile {Re Tm : Type} (env : Env Re Tm) (keys : List String) (b : Block) :
    Except Err (template Re Tm) :=
  match header env keys b.args with
  | .error e => .error e
  | .ok (cls, qtype, zones) => rule env cls qtype zones b.body

/-! ## Directives of a block -/

/-- A sub-directive as the loop `for c.NextBlock()` meets it: the keyword it
loads and the arguments the `case` of that keyword consumes. -/
structure Directive where
  key : String
  args : List String
deriving DecidableEq, Repr

/-- The sub-directives on one line: the first token is a keyword and takes the
rest of the line, except `rcode`, which takes one argument and leaves the
tokens after it to the next iteration. -/
def lineDirectives : List String → List Directive
  | [] => []
  | key :: args =>
    if key = "rcode" then
      match args with
      | [] => [⟨key, []⟩]
      | val :: more => ⟨key, [val]⟩ :: lineDirectives more
    else [⟨key, args⟩]

/-- The sub-directives of a block body, in declaration order. -/
def directives (lines : List (List String)) : List Directive :=
  (lines.map lineDirectives).flatten

/-- The arguments of all sub-directives of one keyword, in declaration order. -/
def argsOf (key : String) (ds : List Directive) : List String :=
  ((ds.filter (fun d => d.key = key)).map Directive.args).flatten

/-- One iteration of `for c.NextBlock()` on a single sub-directive. -/
def step {Re Tm : Type} (env : Env Re Tm) (d : Directive) (s : St Re Tm) : Except Err (St Re Tm) :=
  directive env (d.key :: d.args.take (if d.key = "rcode" then 1 else d.args.length)) s

/-- The iterations of `for c.NextBlock()` over a list of sub-directives. -/
def run {Re Tm : Type} (env : Env Re Tm) : List Directive → St Re Tm → Except Err (St Re Tm)
  | [], s => .ok s
  | d :: ds, s =>
    match step env d s with
    | .error e => .error e
    | .ok s1 => run env ds s1

/-- The leading successes of a list of results. -/
def okPrefix {ε α : Type} : List (Except ε α) → List α
  | .ok a :: rest => a :: okPrefix rest
  | _ => []

/-- The first failure of a list of results, if there is one. -/
def firstErr {ε α : Type} : List (Except ε α) → Option ε
  | [] => none
  | .ok _ :: rest => firstErr rest
  | .error e :: _ => some e

/-! ## A concrete environment -/

/-- A small environment: the class `IN`, the types `A` and `AAAA`, three response
codes, a regular-expression compiler that rejects `(`, a template compiler that
rejects the empty text, and a CIDR parser that knows two networks. -/
def sampleEnv : Env String String where
  StringToClass := fun s => if s = "IN" then some 1 else none
  StringToType := fun s => if s = "A" then some 1 else if s = "AAAA" then some 28 else none
  StringToRcode := fun s =>
    if s = "NOERROR" then some 0 else if s = "NXDOMAIN" then some 3
    else if s = "SERVFAIL" then some 2 else none
  Compile := fun s => if s = "(" then .error "missing closing )" else .ok s
  MustCompile := fun s => s
  Parse := fun _ text => if text = "" then .error "empty template" else .ok text
  parseCIDR := fun s =>
    if s = "10.0.0.0/8" then .ok ⟨.v4 167772160, 8⟩
    else if s = "2001:db8::/32" then .ok ⟨.v6 (0x20010db8 * 2 ^ 96), 32⟩
    else .error "invalid CIDR address"
  SetZonesFromArgs := fun _ zones => if zones.length = 0 then ["."] else zones.map Normalize

/-! ## `setupTemplate` -/

/-- The value `plugin.Error(name, err)`: the error under the plugin's name. -/
structure PluginError where
  name : String
  err : Err
deriving DecidableEq, Repr

/-- The server configuration `dnsserver.GetConfig(c)` as far as `setupTemplate`
changes it: the handlers registered with `AddPlugin`, in registration order. -/
structure Config (Re Tm : Type) where
  Plugin : List (Handler Re Tm)

/-- The method `AddPlugin` of the server configuration; the function it is
given returns `handler` (with its `Next` set), so the handler stands for it. -/
def Config.AddPlugin {Re Tm : Type} (cfg : Config Re Tm) (handler : Handler Re Tm) : Config Re Tm :=
  { cfg with Plugin := cfg.Plugin ++ [handler] }

/-- The function `setupTemplate` (lines 25-41): the server configuration after
the call and the error returned.  `setupMetrics` is declared outside `setup.go`
and is a parameter. -/
def setupTemplate {Re Tm : Type} (env : Env Re Tm) (setupMetrics : Controller → Option Err)
    (c : Controller) (cfg : Config Re Tm) : Config Re Tm × Option PluginError :=
  match templateParse env c with
  | (_, some err) => (cfg, some ⟨"template", err⟩)
  | (handler, none) =>
    match setupMetrics c with
    | some err => (cfg, some ⟨"template", err⟩)
    | none => (cfg.AddPlugin handler, none)

/-- Modelled from the spec: the method `fall.F.SetZonesFromArgs` (`plugin/pkg/fall`
is outside `setup.go`) records the zones of its arguments as the fallthrough set,
whatever the set held before the call. -/
def SetsFromArgs {Re Tm : Type} (env : Env Re Tm) : Prop :=
  ∀ (f f' args : List String), env.SetZonesFromArgs f args = env.SetZonesFromArgs f' args

/-! ## The slices of lines 63-70 in memory -/

/-- The backing arrays of the string slices, by address. -/
abbrev Store := List (List String)

/-- The elements of the slice at an address. -/
def Store.read (σ : Store) (a : Nat) : List String :=
  (σ[a]?).getD []

/-- A slice with a backing array of its own (what `make` and
`c.RemainingArgs()` return): the memory with it, and its address. -/
def Store.alloc (σ : Store) (xs : List String) : Store × Nat :=
  (σ ++ [xs], σ.length)

/-- The assignment `s[i] = v` to the slice at address `a`. -/
def Store.write (σ : Store) (a i : Nat) (v : String) : Store :=
  σ.set a ((Store.read σ a).set i v)

/-- The builtin `copy(dst, src)`: the first elements of `dst`, as many as both
slices hold, become those of `src`. -/
def Store.copy (σ : Store) (dst src : Nat) : Store :=
  let n := min (Store.read σ dst).length (Store.read σ src).length
  σ.set dst ((Store.read σ src).take n ++ (Store.read σ dst).drop n)

/-- Lines 68-70: `for i, str := range zones { zones[i] = plugin.Host(str).Normalize() }`
on the slice at address `zones`. -/
def normalizeAll (σ : Store) (zones : Nat) : Store :=
  (List.range (Store.read σ zones).length).foldl
    (fun σ i => Store.write σ zones i (Normalize (((Store.read σ zones)[i]?).getD ""))) σ

/-- Lines 63-70 with `c.ServerBlockKeys` at address `keys` and `args` the tokens
`c.RemainingArgs()` returns: the memory afterwards and the address of `zones`. -/
def zonesSlice (σ : Store) (keys : Nat) (args : List String) : Store × Nat :=
  let (σ1, zones) := Store.alloc σ args
  let (σ2, zones) :=
    if (Store.read σ1 zones).length = 0 then
      let (σ', made) := Store.alloc σ1 (List.replicate (Store.read σ1 keys).length "")
      (Store.copy σ' made keys, made)
    else (σ1, zones)
  (normalizeAll σ2 zones, zones)

/-- One iteration of `for c.Next()` (lines 47-189) with the slices in memory:
the memory, the handler and the error after it. -/
def blockS {Re Tm : Type} (env : Env Re Tm) (keys : Nat) (b : Block) (σ : Store)
    (handler : Handler Re Tm) : Store × Handler Re Tm × Option Err :=
  match b.args with
  | [] => (σ, handler, some .ArgErr)
  | cv :: rest =>
    match env.StringToClass cv with
    | none => (σ, handler, some (.Errf "invalid query class %s" [cv]))
    | some cls =>
      match rest with
      | [] => (σ, handler, some .ArgErr)
      | tv :: zs =>
        match env.StringToType tv with
        | none => (σ, handler, some (.Errf "invalid RR class %s" [tv]))
        | some qtype =>
          let (σ, zones) := zonesSlice σ keys zs
          let handler := { handler with Zones := handler.Zones ++ Store.read σ zones }
          match rule env cls qtype (Store.read σ zones) b.body with
          | .error e => (σ, handler, some e)
          | .ok t => (σ, { handler with Templates := handler.Templates ++ [t] }, none)

/-- The loop `for c.Next()` with the slices in memory. -/
def blocksS {Re Tm : Type} (env : Env Re Tm) (keys : Nat) :
    List Block → Store → Handler Re Tm → Store × Handler Re Tm × Option Err
  | [], σ, handler => (σ, handler, none)
  | b :: rest, σ, handler =>
    match blockS env keys b σ handler with
    | (σ, handler, some e) => (σ, handler, some e)
    | (σ, handler, none) => blocksS env keys rest σ handler

/-- The function `templateParse` with the slices in memory, `c.ServerBlockKeys`
being the slice at address `keys`: the memory, the handler and the error it
leaves. -/
def templateParseS {Re Tm : Type} (env : Env Re Tm) (keys : Nat) (bs : List Block) (σ : Store) :
    Store × Handler Re Tm × Option Err :=
  blocksS env keys bs σ { Zones := [], Templates := [] }

variable {Re Tm : Type}

/-! ## The loops as folds -/

theorem step_eq (env : Env Re Tm) (key : String) (args : List String) (s : St Re Tm)
    (h : key ≠ "rcode") : step env ⟨key, args⟩ s = directive env (key :: args) s := by
  simp [step, h]

theorem step_rcode_nil (env : Env Re Tm) (s : St Re Tm) :
    step env ⟨"rcode", []⟩ s = .error .ArgErr := by
  simp [step, directive]

theorem step_rcode (env : Env Re Tm) (val : String) (s : St Re Tm) :
    step env ⟨"rcode", [val]⟩ s =
      match env.StringToRcode val with
      | none => .error (.Errf "unknown rcode %s" [val])
      | some rcode => .ok { s with t := { s.t with rcode := rcode } } := by
  simp only [step, directive]
  simp

theorem directive_eq_run (env : Env Re Tm) :
    ∀ (n : Nat) (line : List String) (s : St Re Tm), line.length ≤ n →
      directive env line s = run env (lineDirectives line) s := by
  intro n
  induction n with
  | zero =>
    intro line s hn
    have : line = [] := List.length_eq_zero.mp (Nat.le_zero.mp hn)
    subst this
    simp [directive, lineDirectives, run]
  | succ n ih =>
    intro line s hn
    cases line with
    | nil => simp [directive, lineDirectives, run]
    | cons key args =>
      by_cases hk : key = "rcode"
      · subst hk
        cases args with
        | nil => simp [lineDirectives, run, step_rcode_nil, directive]
        | cons val more =>
          have hm : more.length ≤ n := by simp at hn; omega
          simp only [lineDirectives, run, step_rcode, if_true]
          cases hv : env.StringToRcode val with
          | none => simp [directive, hv]
          | some rcode =>
            simp only []
            rw [← ih more _ hm]
            simp [directive, hv]
      · rw [show lineDirectives (key :: args) = [⟨key, args⟩] by
          rw [lineDirectives.eq_def]; simp [hk]]
        simp only [run, step_eq env key args s hk]
        cases directive env (key :: args) s <;> rfl

theorem run_append (env : Env Re Tm) (ds es : List Directive) (s : St Re Tm) :
    run env (ds ++ es) s =
      match run env ds s with
      | .error e => .error e
      | .ok s1 => run env es s1 := by
  induction ds generalizing s with
  | nil => simp [run]
  | cons d ds ih =>
    simp only [List.cons_append, run]
    cases step env d s with
    | error e => rfl
    | ok s1 => exact ih s1

theorem body_eq_run (env : Env Re Tm) (lines : List (List String)) (s : St Re Tm) :
    body env lines s = run env (directives lines) s := by
  induction lines generalizing s with
  | nil => simp [body, directives, run]
  | cons line rest ih =>
    have hd : directives (line :: rest) = lineDirectives line ++ directives rest := by
      simp [directives]
    rw [hd, run_append, ← directive_eq_run env line.length line s (Nat.le_refl _)]
    simp only [body]
    cases directive env line s with
    | error e => rfl
    | ok s1 => exact ih s1

/-! ## The argument loops -/

theorem appendAll_ok {β : Type} (f : String → Except Err β) :
    ∀ (as : List String) (acc r : List β), appendAll f as acc = .ok r →
      ∃ bs, r = acc ++ bs ∧ as.map f = bs.map .ok := by
  intro as
  induction as with
  | nil =>
    intro acc r h
    simp [appendAll] at h
    exact ⟨[], by simp [h]⟩
  | cons a as ih =>
    intro acc r h
    simp only [appendAll] at h
    cases ha : f a with
    | error e => simp [ha] at h
    | ok b =>
      simp only [ha] at h
      obtain ⟨bs, hr, hm⟩ := ih _ _ h
      exact ⟨b :: bs, by simp [hr], by simp [ha, hm]⟩

theorem appendAll_of_ok {β : Type} (f : String → Except Err β) :
    ∀ (as : List String) (acc bs : List β), as.map f = bs.map .ok →
      appendAll f as acc = .ok (acc ++ bs) := by
  intro as
  induction as with
  | nil =>
    intro acc bs h
    cases bs with
    | nil => simp [appendAll]
    | cons b bs => simp at h
  | cons a as ih =>
    intro acc bs h
    cases bs with
    | nil => simp at h
    | cons b bs =>
      simp only [List.map_cons, List.cons.injEq] at h
      simp only [appendAll, h.1]
      rw [ih _ _ h.2]
      simp

theorem appendAll_error {β : Type} (f : String → Except Err β) :
    ∀ (as : List String) (acc : List β) (a : String), a ∈ as → (∃ e, f a = .error e) →
      ∃ e, appendAll f as acc = .error e := by
  intro as
  induction as with
  | nil => intro acc a ha; simp at ha
  | cons x as ih =>
    intro acc a ha hf
    simp only [appendAll]
    cases hx : f x with
    | error e => exact ⟨e, rfl⟩
    | ok b =>
      simp only []
      rcases List.mem_cons.mp ha with rfl | hmem
      · obtain ⟨e, he⟩ := hf
        rw [hx] at he
        cases he
      · exact ih _ a hmem hf

theorem map_ok_congr {β ε ε' : Type} (f : String → Except ε β) (g : String → Except ε' β)
    (hfg : ∀ a b, f a = .ok b ↔ g a = .ok b) :
    ∀ (as : List String) (bs : List β), as.map f = bs.map .ok ↔ as.map g = bs.map .ok := by
  intro as
  induction as with
  | nil => intro bs; cases bs <;> simp
  | cons a as ih =>
    intro bs
    cases bs with
    | nil => simp
    | cons b bs => simp [hfg a b, ih bs]

/-! ## One sub-directive -/

theorem directive_cons (env : Env Re Tm) (key : String) (args : List String) (s : St Re Tm)
    (hr : key ≠ "rcode") :
    directive env (key :: args) s =
    if key = "match" then
      if args.length = 0 then .error .ArgErr else
      match appendAll (fun regex =>
          match env.Compile regex with
          | .error e => .error (.Errf "could not parse regex: %s, %v" [regex, e])
          | .ok r => .ok r) args s.t.regex with
      | .error e => .error e
      | .ok rs => .ok { s with t := { s.t with regex := rs } }
    else if key = "match-clients" then
      if args.length = 0 then .error .ArgErr else
      match appendAll (clientNet env) args s.matchClients with
      | .error e => .error e
      | .ok ns => .ok { s with matchClients := ns }
    else if key = "answer" then
      if args.length = 0 then .error .ArgErr else
      match appendAll (fun answer =>
          match env.Parse "answer" answer with
          | .error e => .error (.Errf "could not compile template: %s, %v" [lastVal key args, e])
          | .ok tmpl => .ok tmpl) args s.t.answer with
      | .error e => .error e
      | .ok ts => .ok { s with t := { s.t with answer := ts } }
    else if key = "additional" then
      if args.length = 0 then .error .ArgErr else
      match appendAll (fun additional =>
          match env.Parse "additional" additional with
          | .error e => .error (.Errf "could not compile template: %s, %v\n" [lastVal key args, e])
          | .ok tmpl => .ok tmpl) args s.t.additional with
      | .error e => .error e
      | .ok ts => .ok { s with t := { s.t with additional := ts } }
    else if key = "authority" then
      if args.length = 0 then .error .ArgErr else
      match appendAll (fun authority =>
          match env.Parse "authority" authority with
          | .error e => .error (.Errf "could not compile template: %s, %v\n" [lastVal key args, e])
          | .ok tmpl => .ok tmpl) args s.t.authority with
      | .error e => .error e
      | .ok ts => .ok { s with t := { s.t with authority := ts } }
    else if key = "fallthrough" then
      .ok { s with t := { s.t with fall := env.SetZonesFromArgs s.t.fall args } }
    else if key = "upstream" then
      .ok { s with t := { s.t with upstream := some {} } }
    else .error .ArgErr := by
  cases args <;> simp [directive, hr]

/-- What a successful iteration of `for c.NextBlock()` does, by keyword. -/
theorem step_ok (env : Env Re Tm) (d : Directive) (s s' : St Re Tm) (h : step env d s = .ok s') :
    (d.key = "match" ∧ d.args ≠ [] ∧ ∃ rs, d.args.map env.Compile = rs.map .ok ∧
        s' = { s with t := { s.t with regex := s.t.regex ++ rs } }) ∨
    (d.key = "match-clients" ∧ d.args ≠ [] ∧ ∃ ns, d.args.map (clientNet env) = ns.map .ok ∧
        s' = { s with matchClients := s.matchClients ++ ns }) ∨
    (d.key = "answer" ∧ d.args ≠ [] ∧ ∃ ts, d.args.map (env.Parse "answer") = ts.map .ok ∧
        s' = { s with t := { s.t with answer := s.t.answer ++ ts } }) ∨
    (d.key = "additional" ∧ d.args ≠ [] ∧ ∃ ts, d.args.map (env.Parse "additional") = ts.map .ok ∧
        s' = { s with t := { s.t with additional := s.t.additional ++ ts } }) ∨
    (d.key = "authority" ∧ d.args ≠ [] ∧ ∃ ts, d.args.map (env.Parse "authority") = ts.map .ok ∧
        s' = { s with t := { s.t with authority := s.t.authority ++ ts } }) ∨
    (d.key = "rcode" ∧ ∃ val rest rcode, d.args = val :: rest ∧ env.StringToRcode val = some rcode ∧
        s' = { s with t := { s.t with rcode := rcode } }) ∨
    (d.key = "fallthrough" ∧
        s' = { s with t := { s.t with fall := env.SetZonesFromArgs s.t.fall d.args } }) ∨
    (d.key = "upstream" ∧ s' = { s with t := { s.t with upstream := some {} } }) := by
  obtain ⟨key, args⟩ := d
  by_cases hr : key = "rcode"
  · subst hr
    right; right; right; right; right; left
    cases args with
    | nil => simp [step, directive] at h
    | cons val rest =>
      simp only [step, if_true, List.take_succ_cons, List.take_zero, directive] at h
      cases hv : env.StringToRcode val with
      | none => simp [hv] at h
      | some rcode =>
        simp [hv, directive] at h
        exact ⟨rfl, val, rest, rcode, rfl, hv, h.symm⟩
  · rw [step_eq env key args s hr, directive_cons env key args s hr] at h
    simp only
    split_ifs at h with h1 h2 h3 h4 h5 h6 h7 h8 h9 h10 h11 h12
    · left
      refine ⟨h1, by simpa using h2, ?_⟩
      split at h
      · cases h
      · rename_i rs hrs
        obtain ⟨bs, hb, hm⟩ := appendAll_ok _ _ _ _ hrs
        refine ⟨bs, ?_, ?_⟩
        · refine (map_ok_congr _ _ ?_ args bs).mp hm
          intro a b; cases env.Compile a <;> simp
        · cases h; rw [hb]
    · right; left
      refine ⟨h3, by simpa using h4, ?_⟩
      split at h
      · cases h
      · rename_i ns hns
        obtain ⟨bs, hb, hm⟩ := appendAll_ok _ _ _ _ hns
        exact ⟨bs, hm, by cases h; rw [hb]⟩
    · right; right; left
      refine ⟨h5, by simpa using h6, ?_⟩
      split at h
      · cases h
      · rename_i ts hts
        obtain ⟨bs, hb, hm⟩ := appendAll_ok _ _ _ _ hts
        refine ⟨bs, ?_, ?_⟩
        · refine (map_ok_congr _ _ ?_ args bs).mp hm
          intro a b; cases env.Parse "answer" a <;> simp
        · cases h; rw [hb]
    · right; right; right; left
      refine ⟨h7, by simpa using h8, ?_⟩
      split at h
      · cases h
      · rename_i ts hts
        obtain ⟨bs, hb, hm⟩ := appendAll_ok _ _ _ _ hts
        refine ⟨bs, ?_, ?_⟩
        · refine (map_ok_congr _ _ ?_ args bs).mp hm
          intro a b; cases env.Parse "additional" a <;> simp
        · cases h; rw [hb]
    · right; right; right; right; left
      refine ⟨h9, by simpa using h10, ?_⟩
      split at h
      · cases h
      · rename_i ts hts
        obtain ⟨bs, hb, hm⟩ := appendAll_ok _ _ _ _ hts
        refine ⟨bs, ?_, ?_⟩
        · refine (map_ok_congr _ _ ?_ args bs).mp hm
          intro a b; cases env.Parse "authority" a <;> simp
        · cases h; rw [hb]
    · right; right; right; right; right; right; left
      exact ⟨h11, by cases h; rfl⟩
    · right; right; right; right; right; right; right
      exact ⟨h12, by cases h; rfl⟩

/-- No iteration touches the class, the type, the zones or the matcher. -/
theorem step_const (env : Env Re Tm) (d : Directive) (s s' : St Re Tm) (h : step env d s = .ok s') :
    s'.t.qclass = s.t.qclass ∧ s'.t.qtype = s.t.qtype ∧ s'.t.zones = s.t.zones ∧
      s'.t.ranger = s.t.ranger := by
  rcases step_ok env d s s' h with ⟨-, -, _, -, rfl⟩ | ⟨-, -, _, -, rfl⟩ | ⟨-, -, _, -, rfl⟩ |
    ⟨-, -, _, -, rfl⟩ | ⟨-, -, _, -, rfl⟩ | ⟨-, _, _, _, -, -, rfl⟩ | ⟨-, rfl⟩ | ⟨-, rfl⟩ <;>
    exact ⟨rfl, rfl, rfl, rfl⟩

theorem step_answer_frame (env : Env Re Tm) (d : Directive) (s s' : St Re Tm)
    (h : step env d s = .ok s') (hne : d.key ≠ "answer") : s'.t.answer = s.t.answer := by
  rcases step_ok env d s s' h with ⟨hk, -, _, -, rfl⟩ | ⟨hk, -, _, -, rfl⟩ | ⟨hk, -, _, -, rfl⟩ |
    ⟨hk, -, _, -, rfl⟩ | ⟨hk, -, _, -, rfl⟩ | ⟨hk, _, _, _, -, -, rfl⟩ | ⟨hk, rfl⟩ | ⟨hk, rfl⟩ <;>
    first | rfl | exact absurd hk hne

theorem step_authority_frame (env : Env Re Tm) (d : Directive) (s s' : St Re Tm)
    (h : step env d s = .ok s') (hne : d.key ≠ "authority") : s'.t.authority = s.t.authority := by
  rcases step_ok env d s s' h with ⟨hk, -, _, -, rfl⟩ | ⟨hk, -, _, -, rfl⟩ | ⟨hk, -, _, -, rfl⟩ |
    ⟨hk, -, _, -, rfl⟩ | ⟨hk, -, _, -, rfl⟩ | ⟨hk, _, _, _, -, -, rfl⟩ | ⟨hk, rfl⟩ | ⟨hk, rfl⟩ <;>
    first | rfl | exact absurd hk hne

theorem step_additional_frame (env : Env Re Tm) (d : Directive) (s s' : St Re Tm)
    (h : step env d s = .ok s') (hne : d.key ≠ "additional") : s'.t.additional = s.t.additional := by
  rcases step_ok env d s s' h with ⟨hk, -, _, -, rfl⟩ | ⟨hk, -, _, -, rfl⟩ | ⟨hk, -, _, -, rfl⟩ |
    ⟨hk, -, _, -, rfl⟩ | ⟨hk, -, _, -, rfl⟩ | ⟨hk, _, _, _, -, -, rfl⟩ | ⟨hk, rfl⟩ | ⟨hk, rfl⟩ <;>
    first | rfl | exact absurd hk hne

theorem step_rcode_frame (env : Env Re Tm) (d : Directive) (s s' : St Re Tm)
    (h : step env d s = .ok s') (hne : d.key ≠ "rcode") : s'.t.rcode = s.t.rcode := by
  rcases step_ok env d s s' h with ⟨hk, -, _, -, rfl⟩ | ⟨hk, -, _, -, rfl⟩ | ⟨hk, -, _, -, rfl⟩ |
    ⟨hk, -, _, -, rfl⟩ | ⟨hk, -, _, -, rfl⟩ | ⟨hk, _, _, _, -, -, rfl⟩ | ⟨hk, rfl⟩ | ⟨hk, rfl⟩ <;>
    first | rfl | exact absurd hk hne

theorem step_regex_frame (env : Env Re Tm) (d : Directive) (s s' : St Re Tm)
    (h : step env d s = .ok s') (hne : d.key ≠ "match") : s'.t.regex = s.t.regex := by
  rcases step_ok env d s s' h with ⟨hk, -, _, -, rfl⟩ | ⟨hk, -, _, -, rfl⟩ | ⟨hk, -, _, -, rfl⟩ |
    ⟨hk, -, _, -, rfl⟩ | ⟨hk, -, _, -, rfl⟩ | ⟨hk, _, _, _, -, -, rfl⟩ | ⟨hk, rfl⟩ | ⟨hk, rfl⟩ <;>
    first | rfl | exact absurd hk hne

theorem step_matchClients_frame (env : Env Re Tm) (d : Directive) (s s' : St Re Tm)
    (h : step env d s = .ok s') (hne : d.key ≠ "match-clients") : s'.matchClients = s.matchClients := by
  rcases step_ok env d s s' h with ⟨hk, -, _, -, rfl⟩ | ⟨hk, -, _, -, rfl⟩ | ⟨hk, -, _, -, rfl⟩ |
    ⟨hk, -, _, -, rfl⟩ | ⟨hk, -, _, -, rfl⟩ | ⟨hk, _, _, _, -, -, rfl⟩ | ⟨hk, rfl⟩ | ⟨hk, rfl⟩ <;>
    first | rfl | exact absurd hk hne

theorem step_fall_frame (env : Env Re Tm) (d : Directive) (s s' : St Re Tm)
    (h : step env d s = .ok s') (hne : d.key ≠ "fallthrough") : s'.t.fall = s.t.fall := by
  rcases step_ok env d s s' h with ⟨hk, -, _, -, rfl⟩ | ⟨hk, -, _, -, rfl⟩ | ⟨hk, -, _, -, rfl⟩ |
    ⟨hk, -, _, -, rfl⟩ | ⟨hk, -, _, -, rfl⟩ | ⟨hk, _, _, _, -, -, rfl⟩ | ⟨hk, rfl⟩ | ⟨hk, rfl⟩ <;>
    first | rfl | exact absurd hk hne

theorem step_upstream_frame (env : Env Re Tm) (d : Directive) (s s' : St Re Tm)
    (h : step env d s = .ok s') (hne : d.key ≠ "upstream") : s'.t.upstream = s.t.upstream := by
  rcases step_ok env d s s' h with ⟨hk, -, _, -, rfl⟩ | ⟨hk, -, _, -, rfl⟩ | ⟨hk, -, _, -, rfl⟩ |
    ⟨hk, -, _, -, rfl⟩ | ⟨hk, -, _, -, rfl⟩ | ⟨hk, _, _, _, -, -, rfl⟩ | ⟨hk, rfl⟩ | ⟨hk, rfl⟩ <;>
    first | rfl | exact absurd hk hne

theorem run_cons_ok (env : Env Re Tm) (d : Directive) (ds : List Directive) (s s' : St Re Tm)
    (h : run env (d :: ds) s = .ok s') : ∃ s1, step env d s = .ok s1 ∧ run env ds s1 = .ok s' := by
  simp only [run] at h
  cases hs : step env d s with
  | error e => simp [hs] at h
  | ok s1 => exact ⟨s1, rfl, by simpa [hs] using h⟩

theorem run_const (env : Env Re Tm) (ds : List Directive) (s s' : St Re Tm)
    (h : run env ds s = .ok s') :
    s'.t.qclass = s.t.qclass ∧ s'.t.qtype = s.t.qtype ∧ s'.t.zones = s.t.zones ∧
      s'.t.ranger = s.t.ranger := by
  induction ds generalizing s with
  | nil => simp [run] at h; subst h; exact ⟨rfl, rfl, rfl, rfl⟩
  | cons d ds ih =>
    obtain ⟨s1, h1, h2⟩ := run_cons_ok env d ds s s' h
    obtain ⟨a, b, c, e⟩ := step_const env d s s1 h1
    obtain ⟨a', b', c', e'⟩ := ih s1 h2
    exact ⟨a'.trans a, b'.trans b, c'.trans c, e'.trans e⟩

theorem run_answer_frame (env : Env Re Tm) (ds : List Directive) (s s' : St Re Tm)
    (h : run env ds s = .ok s') (hne : ∀ d ∈ ds, d.key ≠ "answer") : s'.t.answer = s.t.answer := by
  induction ds generalizing s with
  | nil => simp [run] at h; subst h; rfl
  | cons d ds ih =>
    obtain ⟨s1, h1, h2⟩ := run_cons_ok env d ds s s' h
    rw [ih s1 h2 (fun x hx => hne x (List.mem_cons_of_mem _ hx)),
      step_answer_frame env d s s1 h1 (hne d (List.mem_cons_self _ _))]

theorem run_authority_frame (env : Env Re Tm) (ds : List Directive) (s s' : St Re Tm)
    (h : run env ds s = .ok s') (hne : ∀ d ∈ ds, d.key ≠ "authority") : s'.t.authority = s.t.authority := by
  induction ds generalizing s with
  | nil => simp [run] at h; subst h; rfl
  | cons d ds ih =>
    obtain ⟨s1, h1, h2⟩ := run_cons_ok env d ds s s' h
    rw [ih s1 h2 (fun x hx => hne x (List.mem_cons_of_mem _ hx)),
      step_authority_frame env d s s1 h1 (hne d (List.mem_cons_self _ _))]

theorem run_additional_frame (env : Env Re Tm) (ds : List Directive) (s s' : St Re Tm)
    (h : run env ds s = .ok s') (hne : ∀ d ∈ ds, d.key ≠ "additional") : s'.t.additional = s.t.additional := by
  induction ds generalizing s with
  | nil => simp [run] at h; subst h; rfl
  | cons d ds ih =>
    obtain ⟨s1, h1, h2⟩ := run_cons_ok env d ds s s' h
    rw [ih s1 h2 (fun x hx => hne x (List.mem_cons_of_mem _ hx)),
      step_additional_frame env d s s1 h1 (hne d (List.mem_cons_self _ _))]

theorem run_rcode_frame (env : Env Re Tm) (ds : List Directive) (s s' : St Re Tm)
    (h : run env ds s = .ok s') (hne : ∀ d ∈ ds, d.key ≠ "rcode") : s'.t.rcode = s.t.rcode := by
  induction ds generalizing s with
  | nil => simp [run] at h; subst h; rfl
  | cons d ds ih =>
    obtain ⟨s1, h1, h2⟩ := run_cons_ok env d ds s s' h
    rw [ih s1 h2 (fun x hx => hne x (List.mem_cons_of_mem _ hx)),
      step_rcode_frame env d s s1 h1 (hne d (List.mem_cons_self _ _))]

theorem run_regex_frame (env : Env Re Tm) (ds : List Directive) (s s' : St Re Tm)
    (h : run env ds s = .ok s') (hne : ∀ d ∈ ds, d.key ≠ "match") : s'.t.regex = s.t.regex := by
  induction ds generalizing s with
  | nil => simp [run] at h; subst h; rfl
  | cons d ds ih =>
    obtain ⟨s1, h1, h2⟩ := run_cons_ok env d ds s s' h
    rw [ih s1 h2 (fun x hx => hne x (List.mem_cons_of_mem _ hx)),
      step_regex_frame env d s s1 h1 (hne d (List.mem_cons_self _ _))]

theorem run_matchClients_frame (env : Env Re Tm) (ds : List Directive) (s s' : St Re Tm)
    (h : run env ds s = .ok s') (hne : ∀ d ∈ ds, d.key ≠ "match-clients") : s'.matchClients = s.matchClients := by
  induction ds generalizing s with
  | nil => simp [run] at h; subst h; rfl
  | cons d ds ih =>
    obtain ⟨s1, h1, h2⟩ := run_cons_ok env d ds s s' h
    rw [ih s1 h2 (fun x hx => hne x (List.mem_cons_of_mem _ hx)),
      step_matchClients_frame env d s s1 h1 (hne d (List.mem_cons_self _ _))]

/-- The response code a run leaves is the one the last `rcode` names. -/
theorem run_rcode_last (env : Env Re Tm) (ds : List Directive) (s s' : St Re Tm)
    (h : run env ds s = .ok s') :
    match (ds.filter (fun d => d.key = "rcode")).getLast? with
    | none => s'.t.rcode = s.t.rcode
    | some d => ∃ val rest, d.args = val :: rest ∧ env.StringToRcode val = some s'.t.rcode := by
  induction ds generalizing s with
  | nil => simp [run] at h; subst h; simp
  | cons d ds ih =>
    obtain ⟨s1, h1, h2⟩ := run_cons_ok env d ds s s' h
    have ih1 := ih s1 h2
    by_cases hk : d.key = "rcode"
    · have hf : (d :: ds).filter (fun d => d.key = "rcode")
          = d :: ds.filter (fun d => d.key = "rcode") := by simp [hk]
      rw [hf]
      cases hl : ds.filter (fun d => d.key = "rcode") with
      | nil =>
        rw [hl] at ih1
        simp only [List.getLast?_nil] at ih1
        simp only [List.getLast?_singleton]
        rcases step_ok env d s s1 h1 with ⟨hk', -⟩ | ⟨hk', -⟩ | ⟨hk', -⟩ | ⟨hk', -⟩ | ⟨hk', -⟩ |
          ⟨-, val, rest, rcode, ha, hv, rfl⟩ | ⟨hk', -⟩ | ⟨hk', -⟩
        all_goals first
          | (rw [hk] at hk'; exact absurd hk' (by decide))
          | exact ⟨val, rest, ha, by rw [ih1]; exact hv⟩
      | cons x xs =>
        rw [hl] at ih1
        rw [List.getLast?_cons_cons]
        exact ih1
    · have hf : (d :: ds).filter (fun d => d.key = "rcode")
          = ds.filter (fun d => d.key = "rcode") := by simp [hk]
      rw [hf]
      have h3 := step_rcode_frame env d s s1 h1 hk
      cases hl : (ds.filter (fun d => d.key = "rcode")).getLast? with
      | none => rw [hl] at ih1; simp only at ih1 ⊢; rw [ih1, h3]
      | some x => rw [hl] at ih1; exact ih1

/-! ## The end of an iteration -/

theorem fillRanger_fields (env : Env Re Tm) (t : template Re Tm) (mc : List IPNet) :
    (fillRanger env t mc).qclass = t.qclass ∧ (fillRanger env t mc).qtype = t.qtype ∧
    (fillRanger env t mc).zones = t.zones ∧ (fillRanger env t mc).regex = t.regex ∧
    (fillRanger env t mc).answer = t.answer ∧ (fillRanger env t mc).additional = t.additional ∧
    (fillRanger env t mc).authority = t.authority ∧ (fillRanger env t mc).rcode = t.rcode ∧
    (fillRanger env t mc).fall = t.fall ∧ (fillRanger env t mc).upstream = t.upstream := by
  unfold fillRanger
  split_ifs <;> simp [ParseCIDR]

theorem fillRanger_ranger (env : Env Re Tm) (t : template Re Tm) (mc : List IPNet) :
    (fillRanger env t mc).ranger =
      if mc = [] then t.ranger.Insert anyNet else t.ranger := by
  unfold fillRanger
  by_cases h : mc = []
  · simp [h, ParseCIDR]
  · have : ¬ mc.length = 0 := by simpa using h
    simp [h, this]

/-- The rule before the matcher is filled: the default pattern is in place. -/
theorem withRegex_fields (env : Env Re Tm) (t : template Re Tm) :
    let t' := if t.regex.length = 0 then { t with regex := t.regex ++ [env.MustCompile ".*"] } else t
    t'.qclass = t.qclass ∧ t'.qtype = t.qtype ∧ t'.zones = t.zones ∧
    t'.answer = t.answer ∧ t'.additional = t.additional ∧ t'.authority = t.authority ∧
    t'.rcode = t.rcode ∧ t'.fall = t.fall ∧ t'.upstream = t.upstream ∧ t'.ranger = t.ranger := by
  intro t'
  by_cases h : t.regex.length = 0 <;> simp [t', h]

/-- The iteration ends in the error of line 186 exactly when there is neither
an answer nor an authority template and the response code is success. -/
theorem finish_eq (env : Env Re Tm) (s : St Re Tm) :
    finish env s =
      if s.t.answer.length = 0 ∧ s.t.authority.length = 0 ∧ s.t.rcode = RcodeSuccess then
        .error (.Errf "no answer section for template found: %v" [])
      else
        .ok (fillRanger env (if s.t.regex.length = 0 then
          { s.t with regex := s.t.regex ++ [env.MustCompile ".*"] } else s.t) s.matchClients) := by
  unfold finish
  obtain ⟨a, b, c, d, e, f, g, hh, i, j⟩ := fillRanger_fields env
    (if s.t.regex.length = 0 then { s.t with regex := s.t.regex ++ [env.MustCompile ".*"] } else s.t)
    s.matchClients
  obtain ⟨a', b', c', d', e', f', g', hh', i', j'⟩ := withRegex_fields env s.t
  simp only [e, g, hh, d', f', g']

theorem finish_fields (env : Env Re Tm) (s : St Re Tm) (t : template Re Tm)
    (h : finish env s = .ok t) :
    t.qclass = s.t.qclass ∧ t.qtype = s.t.qtype ∧ t.zones = s.t.zones ∧
    t.answer = s.t.answer ∧ t.additional = s.t.additional ∧ t.authority = s.t.authority ∧
    t.rcode = s.t.rcode ∧ t.fall = s.t.fall ∧ t.upstream = s.t.upstream := by
  rw [finish_eq] at h
  by_cases hc : s.t.answer.length = 0 ∧ s.t.authority.length = 0 ∧ s.t.rcode = RcodeSuccess
  · rw [if_pos hc] at h; cases h
  rw [if_neg hc] at h
  injection h with h
  subst h
  obtain ⟨a, b, c, d, e, f, g, hh, i, j⟩ := fillRanger_fields env
    (if s.t.regex.length = 0 then { s.t with regex := s.t.regex ++ [env.MustCompile ".*"] } else s.t)
    s.matchClients
  obtain ⟨a', b', c', d', e', f', g', hh', i', j'⟩ := withRegex_fields env s.t
  exact ⟨a.trans a', b.trans b', c.trans c', e.trans d', f.trans e', g.trans f', hh.trans g',
    i.trans hh', j.trans i'⟩

/-! ## One block and the loop over the blocks -/

/-- A rule carries the class, type and zones its header gave. -/
theorem rule_header (env : Env Re Tm) (cls qtype : Nat) (zones : List String)
    (lines : List (List String)) (t : template Re Tm)
    (h : rule env cls qtype zones lines = .ok t) :
    t.qclass = cls ∧ t.qtype = qtype ∧ t.zones = zones := by
  unfold rule at h
  cases hb : body env lines { t := { qclass := cls, qtype := qtype, zones := zones } } with
  | error e => simp [hb] at h
  | ok s =>
    simp only [hb] at h
    rw [body_eq_run] at hb
    obtain ⟨a, b, c, -⟩ := run_const env _ _ _ hb
    obtain ⟨a', b', c', -⟩ := finish_fields env s t h
    exact ⟨a'.trans a, b'.trans b, c'.trans c⟩

theorem block_of_ok (env : Env Re Tm) (keys : List String) (b : Block) (handler : Handler Re Tm)
    (t : template Re Tm) (h : compile env keys b = .ok t) :
    block env keys b handler =
      ({ Zones := handler.Zones ++ t.zones, Templates := handler.Templates ++ [t] }, none) := by
  unfold compile at h
  unfold block
  cases hh : header env keys b.args with
  | error e => simp [hh] at h
  | ok r =>
    obtain ⟨cls, qtype, zones⟩ := r
    simp only [hh] at h
    simp only [h]
    rw [(rule_header env cls qtype zones b.body t h).2.2]

theorem block_of_error (env : Env Re Tm) (keys : List String) (b : Block) (handler : Handler Re Tm)
    (e : Err) (h : compile env keys b = .error e) :
    (block env keys b handler).2 = some e ∧
      (block env keys b handler).1.Templates = handler.Templates := by
  unfold compile at h
  unfold block
  cases hh : header env keys b.args with
  | error e' => simp [hh] at h; simp [h]
  | ok r =>
    obtain ⟨cls, qtype, zones⟩ := r
    simp only [hh] at h
    simp [h]

theorem blocks_err (env : Env Re Tm) (keys : List String) (bs : List Block)
    (handler : Handler Re Tm) :
    (blocks env keys bs handler).2 = firstErr (bs.map (compile env keys)) := by
  induction bs generalizing handler with
  | nil => simp [blocks, firstErr]
  | cons b bs ih =>
    simp only [blocks, List.map_cons]
    cases hc : compile env keys b with
    | error e =>
      obtain ⟨h1, -⟩ := block_of_error env keys b handler e hc
      rcases hb : block env keys b handler with ⟨h', o⟩
      rw [hb] at h1
      simp only at h1
      subst h1
      simp [firstErr]
    | ok t =>
      rw [block_of_ok env keys b handler t hc]
      simp only [firstErr]
      exact ih _

theorem blocks_templates (env : Env Re Tm) (keys : List String) (bs : List Block)
    (handler : Handler Re Tm) :
    (blocks env keys bs handler).1.Templates =
      handler.Templates ++ okPrefix (bs.map (compile env keys)) := by
  induction bs generalizing handler with
  | nil => simp [blocks, okPrefix]
  | cons b bs ih =>
    simp only [blocks, List.map_cons]
    cases hc : compile env keys b with
    | error e =>
      obtain ⟨h1, h2⟩ := block_of_error env keys b handler e hc
      rcases hb : block env keys b handler with ⟨h', o⟩
      rw [hb] at h1 h2
      simp only at h1 h2
      subst h1
      simp [okPrefix, h2]
    | ok t =>
      rw [block_of_ok env keys b handler t hc]
      simp only [okPrefix]
      rw [ih]
      simp

theorem okPrefix_append_error {ε α : Type} (pre : List (Except ε α)) (e : ε)
    (post : List (Except ε α)) :
    okPrefix (pre ++ .error e :: post) = okPrefix pre := by
  induction pre with
  | nil => simp [okPrefix]
  | cons x xs ih =>
    cases x with
    | error e' => simp [okPrefix]
    | ok a => simp [okPrefix, ih]

theorem firstErr_append_error {ε α : Type} (pre : List (Except ε α)) (e : ε)
    (post : List (Except ε α)) :
    ∃ e', firstErr (pre ++ .error e :: post) = some e' := by
  induction pre with
  | nil => exact ⟨e, by simp [firstErr]⟩
  | cons x xs ih =>
    cases x with
    | error e' => exact ⟨e', by simp [firstErr]⟩
    | ok a => simpa [firstErr] using ih

theorem okPrefix_map_ok {ε α : Type} (ts : List α) :
    okPrefix (ts.map (Except.ok : α → Except ε α)) = ts := by
  induction ts with
  | nil => simp [okPrefix]
  | cons t ts ih => simp [okPrefix, ih]

theorem firstErr_map_ok {ε α : Type} (ts : List α) :
    firstErr (ts.map (Except.ok : α → Except ε α)) = none := by
  induction ts with
  | nil => simp [firstErr]
  | cons t ts ih => simp [firstErr, ih]

theorem blocks_append (env : Env Re Tm) (keys : List String) (pre post : List Block)
    (handler : Handler Re Tm) :
    blocks env keys (pre ++ post) handler =
      match blocks env keys pre handler with
      | (h1, some e) => (h1, some e)
      | (h1, none) => blocks env keys post h1 := by
  induction pre generalizing handler with
  | nil => simp [blocks]
  | cons b bs ih =>
    simp only [List.cons_append, blocks]
    rcases hb : block env keys b handler with ⟨h1, o⟩
    cases o with
    | some e => rfl
    | none => exact ih h1

/-- What `templateParse` returns when a block fails: an error, and the rules
of the blocks before it (up to the first of them that fails). -/
theorem templateParse_of_error (env : Env Re Tm) (keys : List String) (pre post : List Block)
    (b : Block) (e : Err) (h : compile env keys b = .error e) :
    (∃ e', (templateParse env ⟨keys, pre ++ b :: post⟩).2 = some e') ∧
      (templateParse env ⟨keys, pre ++ b :: post⟩).1.Templates =
        (templateParse env ⟨keys, pre⟩).1.Templates := by
  simp only [templateParse, blocks_err, blocks_templates, List.map_append, List.map_cons, h]
  exact ⟨firstErr_append_error _ _ _, by rw [okPrefix_append_error]⟩

/-- What `templateParse` returns when every block compiles. -/
theorem templateParse_of_ok (env : Env Re Tm) (keys : List String) (bs : List Block)
    (ts : List (template Re Tm)) (h : bs.map (compile env keys) = ts.map .ok) :
    (templateParse env ⟨keys, bs⟩).2 = none ∧ (templateParse env ⟨keys, bs⟩).1.Templates = ts := by
  simp only [templateParse, blocks_err, blocks_templates, h, firstErr_map_ok, okPrefix_map_ok]
  simp

/-- A block without answer and authority templates and with the success code
does not compile. -/
theorem compile_error_of_empty (env : Env Re Tm) (keys : List String) (b : Block)
    (hno : ∀ d ∈ directives b.body, d.key ≠ "answer" ∧ d.key ≠ "authority")
    (hrc : ∀ d, ((directives b.body).filter (fun d => d.key = "rcode")).getLast? = some d →
      ∀ val ∈ d.args, env.StringToRcode val = some RcodeSuccess) :
    ∃ e, compile env keys b = .error e := by
  unfold compile
  cases hh : header env keys b.args with
  | error e => exact ⟨e, rfl⟩
  | ok r =>
    obtain ⟨cls, qtype, zones⟩ := r
    simp only [rule]
    cases hb : body env b.body { t := { qclass := cls, qtype := qtype, zones := zones } } with
    | error e => exact ⟨e, rfl⟩
    | ok s =>
      simp only
      rw [body_eq_run] at hb
      have ha := run_answer_frame env _ _ _ hb (fun d hd => (hno d hd).1)
      have hau := run_authority_frame env _ _ _ hb (fun d hd => (hno d hd).2)
      have hr := run_rcode_last env _ _ _ hb
      have hrs : s.t.rcode = RcodeSuccess := by
        cases hl : ((directives b.body).filter (fun d => d.key = "rcode")).getLast? with
        | none => rw [hl] at hr; exact hr
        | some d =>
          rw [hl] at hr
          obtain ⟨val, rest, hargs, hv⟩ := hr
          have := hrc d hl val (by rw [hargs]; exact List.mem_cons_self _ _)
          rw [this] at hv
          exact (Option.some.inj hv).symm
      rw [finish_eq, if_pos ⟨by rw [ha]; rfl, by rw [hau]; rfl, hrs⟩]
      exact ⟨_, rfl⟩

theorem exists_map_ok {ε α β : Type} (f : β → Except ε α) (bs : List β)
    (h : ∀ b ∈ bs, ∃ t, f b = .ok t) : ∃ ts : List α, bs.map f = ts.map .ok := by
  induction bs with
  | nil => exact ⟨[], rfl⟩
  | cons b bs ih =>
    obtain ⟨t, ht⟩ := h b (List.mem_cons_self _ _)
    obtain ⟨ts, hts⟩ := ih (fun x hx => h x (List.mem_cons_of_mem _ hx))
    exact ⟨t :: ts, by simp [ht, hts]⟩

/-- A run that meets a sub-directive failing in every state fails. -/
theorem run_error_of_mem (env : Env Re Tm) (ds : List Directive) (d : Directive) (hd : d ∈ ds)
    (hbad : ∀ s, ∃ e, step env d s = .error e) : ∀ s, ∃ e, run env ds s = .error e := by
  induction ds with
  | nil => simp at hd
  | cons x xs ih =>
    intro s
    simp only [run]
    cases hx : step env x s with
    | error e => exact ⟨e, rfl⟩
    | ok s1 =>
      rcases List.mem_cons.mp hd with rfl | hmem
      · obtain ⟨e, he⟩ := hbad s
        rw [hx] at he
        cases he
      · exact ih hmem s1

/-- A `match` with an argument that is no regular expression fails. -/
theorem step_match_error (env : Env Re Tm) (args : List String) (a : String) (ha : a ∈ args)
    (hbad : ∃ e, env.Compile a = .error e) (s : St Re Tm) :
    ∃ e, step env ⟨"match", args⟩ s = .error e := by
  rw [step_eq env "match" args s (by decide), directive_cons env "match" args s (by decide)]
  simp only [if_true]
  have hl : ¬ args.length = 0 := by
    intro h0
    rw [List.length_eq_zero.mp h0] at ha
    simp at ha
  rw [if_neg hl]
  obtain ⟨e, he⟩ := appendAll_error (fun regex =>
      match env.Compile regex with
      | .error e => .error (.Errf "could not parse regex: %s, %v" [regex, e])
      | .ok r => (.ok r : Except Err Re)) args s.t.regex a ha
    (by obtain ⟨e, he⟩ := hbad; exact ⟨.Errf "could not parse regex: %s, %v" [a, e], by simp only [he]⟩)
  rw [he]
  exact ⟨e, rfl⟩

/-- A `match-clients` with a token that is neither `any` nor a CIDR fails. -/
theorem step_clients_error (env : Env Re Tm) (args : List String) (a : String) (ha : a ∈ args)
    (hany : ToLower a ≠ "any") (hbad : ∃ e, ParseCIDR env a = .error e) (s : St Re Tm) :
    ∃ e, step env ⟨"match-clients", args⟩ s = .error e := by
  rw [step_eq env "match-clients" args s (by decide),
    directive_cons env "match-clients" args s (by decide)]
  simp only [show ¬ ("match-clients" = "match") by decide, if_false, if_true]
  have hl : ¬ args.length = 0 := by
    intro h0
    rw [List.length_eq_zero.mp h0] at ha
    simp at ha
  rw [if_neg hl]
  obtain ⟨e, he⟩ := appendAll_error (clientNet env) args s.matchClients a ha
    (by
      obtain ⟨e, he⟩ := hbad
      exact ⟨.Errf "could not parse cidr: %s, %v" [a, e], by simp only [clientNet, if_neg hany, he]⟩)
  rw [he]
  exact ⟨e, rfl⟩

/-- A block with a sub-directive that fails in every state does not compile. -/
theorem compile_error_of_step (env : Env Re Tm) (keys : List String) (b : Block) (d : Directive)
    (hd : d ∈ directives b.body) (hbad : ∀ s, ∃ e, step env d s = .error e) :
    ∃ e, compile env keys b = .error e := by
  unfold compile
  cases hh : header env keys b.args with
  | error e => exact ⟨e, rfl⟩
  | ok r =>
    obtain ⟨cls, qtype, zones⟩ := r
    simp only [rule, body_eq_run]
    obtain ⟨e, he⟩ := run_error_of_mem env _ d hd hbad
      { t := { qclass := cls, qtype := qtype, zones := zones } }
    rw [he]
    exact ⟨e, rfl⟩

/-! ## The lists a run builds -/

theorem argsOf_cons (key : String) (d : Directive) (ds : List Directive) :
    argsOf key (d :: ds) = (if d.key = key then d.args else []) ++ argsOf key ds := by
  by_cases h : d.key = key <;> simp [argsOf, h]

theorem argsOf_eq_nil (key : String) (ds : List Directive) (h : ∀ d ∈ ds, d.key ≠ key) :
    argsOf key ds = [] := by
  induction ds with
  | nil => rfl
  | cons d ds ih =>
    rw [argsOf_cons, if_neg (h d (List.mem_cons_self _ _)),
      ih (fun x hx => h x (List.mem_cons_of_mem _ hx))]
    rfl

theorem run_regex (env : Env Re Tm) (ds : List Directive) (s s' : St Re Tm)
    (h : run env ds s = .ok s') :
    ∃ xs : List Re, (argsOf "match" ds).map env.Compile = xs.map .ok ∧ s'.t.regex = s.t.regex ++ xs := by
  induction ds generalizing s with
  | nil => simp [run] at h; subst h; exact ⟨[], by simp [argsOf]⟩
  | cons d ds ih =>
    obtain ⟨s1, h1, h2⟩ := run_cons_ok env d ds s s' h
    obtain ⟨xs, hxs, hs'⟩ := ih s1 h2
    rw [argsOf_cons]
    by_cases hk : d.key = "match"
    · rw [if_pos hk]
      rcases step_ok env d s s1 h1 with ⟨hk', -, ys, hys, rfl⟩ | ⟨hk', -, ys, hys, rfl⟩ |
        ⟨hk', -, ys, hys, rfl⟩ | ⟨hk', -, ys, hys, rfl⟩ | ⟨hk', -, ys, hys, rfl⟩ |
        ⟨hk', -⟩ | ⟨hk', -⟩ | ⟨hk', -⟩
      all_goals first
        | (rw [hk] at hk'; exact absurd hk' (by decide))
        | exact ⟨ys ++ xs, by simp [hys, hxs], by rw [hs']; simp⟩
    · rw [if_neg hk]
      exact ⟨xs, by simpa using hxs, by rw [hs', step_regex_frame env d s s1 h1 hk]⟩

theorem run_matchClients (env : Env Re Tm) (ds : List Directive) (s s' : St Re Tm)
    (h : run env ds s = .ok s') :
    ∃ xs : List IPNet, (argsOf "match-clients" ds).map (clientNet env) = xs.map .ok ∧ s'.matchClients = s.matchClients ++ xs := by
  induction ds generalizing s with
  | nil => simp [run] at h; subst h; exact ⟨[], by simp [argsOf]⟩
  | cons d ds ih =>
    obtain ⟨s1, h1, h2⟩ := run_cons_ok env d ds s s' h
    obtain ⟨xs, hxs, hs'⟩ := ih s1 h2
    rw [argsOf_cons]
    by_cases hk : d.key = "match-clients"
    · rw [if_pos hk]
      rcases step_ok env d s s1 h1 with ⟨hk', -, ys, hys, rfl⟩ | ⟨hk', -, ys, hys, rfl⟩ |
        ⟨hk', -, ys, hys, rfl⟩ | ⟨hk', -, ys, hys, rfl⟩ | ⟨hk', -, ys, hys, rfl⟩ |
        ⟨hk', -⟩ | ⟨hk', -⟩ | ⟨hk', -⟩
      all_goals first
        | (rw [hk] at hk'; exact absurd hk' (by decide))
        | exact ⟨ys ++ xs, by simp [hys, hxs], by rw [hs']; simp⟩
    · rw [if_neg hk]
      exact ⟨xs, by simpa using hxs, by rw [hs', step_matchClients_frame env d s s1 h1 hk]⟩

theorem run_answer (env : Env Re Tm) (ds : List Directive) (s s' : St Re Tm)
    (h : run env ds s = .ok s') :
    ∃ xs : List Tm, (argsOf "answer" ds).map (env.Parse "answer") = xs.map .ok ∧ s'.t.answer = s.t.answer ++ xs := by
  induction ds generalizing s with
  | nil => simp [run] at h; subst h; exact ⟨[], by simp [argsOf]⟩
  | cons d ds ih =>
    obtain ⟨s1, h1, h2⟩ := run_cons_ok env d ds s s' h
    obtain ⟨xs, hxs, hs'⟩ := ih s1 h2
    rw [argsOf_cons]
    by_cases hk : d.key = "answer"
    · rw [if_pos hk]
      rcases step_ok env d s s1 h1 with ⟨hk', -, ys, hys, rfl⟩ | ⟨hk', -, ys, hys, rfl⟩ |
        ⟨hk', -, ys, hys, rfl⟩ | ⟨hk', -, ys, hys, rfl⟩ | ⟨hk', -, ys, hys, rfl⟩ |
        ⟨hk', -⟩ | ⟨hk', -⟩ | ⟨hk', -⟩
      all_goals first
        | (rw [hk] at hk'; exact absurd hk' (by decide))
        | exact ⟨ys ++ xs, by simp [hys, hxs], by rw [hs']; simp⟩
    · rw [if_neg hk]
      exact ⟨xs, by simpa using hxs, by rw [hs', step_answer_frame env d s s1 h1 hk]⟩

theorem run_authority (env : Env Re Tm) (ds : List Directive) (s s' : St Re Tm)
    (h : run env ds s = .ok s') :
    ∃ xs : List Tm, (argsOf "authority" ds).map (env.Parse "authority") = xs.map .ok ∧ s'.t.authority = s.t.authority ++ xs := by
  induction ds generalizing s with
  | nil => simp [run] at h; subst h; exact ⟨[], by simp [argsOf]⟩
  | cons d ds ih =>
    obtain ⟨s1, h1, h2⟩ := run_cons_ok env d ds s s' h
    obtain ⟨xs, hxs, hs'⟩ := ih s1 h2
    rw [argsOf_cons]
    by_cases hk : d.key = "authority"
    · rw [if_pos hk]
      rcases step_ok env d s s1 h1 with ⟨hk', -, ys, hys, rfl⟩ | ⟨hk', -, ys, hys, rfl⟩ |
        ⟨hk', -, ys, hys, rfl⟩ | ⟨hk', -, ys, hys, rfl⟩ | ⟨hk', -, ys, hys, rfl⟩ |
        ⟨hk', -⟩ | ⟨hk', -⟩ | ⟨hk', -⟩
      all_goals first
        | (rw [hk] at hk'; exact absurd hk' (by decide))
        | exact ⟨ys ++ xs, by simp [hys, hxs], by rw [hs']; simp⟩
    · rw [if_neg hk]
      exact ⟨xs, by simpa using hxs, by rw [hs', step_authority_frame env d s s1 h1 hk]⟩

theorem run_additional (env : Env Re Tm) (ds : List Directive) (s s' : St Re Tm)
    (h : run env ds s = .ok s') :
    ∃ xs : List Tm, (argsOf "additional" ds).map (env.Parse "additional") = xs.map .ok ∧ s'.t.additional = s.t.additional ++ xs := by
  induction ds generalizing s with
  | nil => simp [run] at h; subst h; exact ⟨[], by simp [argsOf]⟩
  | cons d ds ih =>
    obtain ⟨s1, h1, h2⟩ := run_cons_ok env d ds s s' h
    obtain ⟨xs, hxs, hs'⟩ := ih s1 h2
    rw [argsOf_cons]
    by_cases hk : d.key = "additional"
    · rw [if_pos hk]
      rcases step_ok env d s s1 h1 with ⟨hk', -, ys, hys, rfl⟩ | ⟨hk', -, ys, hys, rfl⟩ |
        ⟨hk', -, ys, hys, rfl⟩ | ⟨hk', -, ys, hys, rfl⟩ | ⟨hk', -, ys, hys, rfl⟩ |
        ⟨hk', -⟩ | ⟨hk', -⟩ | ⟨hk', -⟩
      all_goals first
        | (rw [hk] at hk'; exact absurd hk' (by decide))
        | exact ⟨ys ++ xs, by simp [hys, hxs], by rw [hs']; simp⟩
    · rw [if_neg hk]
      exact ⟨xs, by simpa using hxs, by rw [hs', step_additional_frame env d s s1 h1 hk]⟩

/-! ## The matcher -/

theorem mem_foldl_Insert (ns : List IPNet) (r : Ranger) (n : IPNet) :
    n ∈ (ns.foldl Ranger.Insert r).entries ↔ n ∈ r.entries ∨ n ∈ ns := by
  induction ns generalizing r with
  | nil => simp
  | cons x xs ih =>
    simp only [List.foldl_cons, ih, List.mem_cons]
    unfold Ranger.Insert
    by_cases hx : x ∈ r.entries
    · rw [if_pos hx]
      constructor
      · rintro (h | h)
        · exact Or.inl h
        · exact Or.inr (Or.inr h)
      · rintro (h | rfl | h)
        · exact Or.inl h
        · exact Or.inl hx
        · exact Or.inr h
    · rw [if_neg hx]
      simp only [List.mem_append, List.mem_singleton]
      tauto

theorem Ranger.Contains_iff (r : Ranger) (a : IP) :
    r.Contains a = true ↔ ∃ n ∈ r.entries, n.Contains a = true := by
  simp [Ranger.Contains]

/-- What a compiled rule is made of: the header, the run over the
sub-directives and the closing step. -/
theorem compile_ok (env : Env Re Tm) (keys : List String) (b : Block) (t : template Re Tm)
    (h : compile env keys b = .ok t) :
    ∃ cls qtype zones s, header env keys b.args = .ok (cls, qtype, zones) ∧
      run env (directives b.body) { t := { qclass := cls, qtype := qtype, zones := zones } } = .ok s ∧
      finish env s = .ok t := by
  unfold compile at h
  cases hh : header env keys b.args with
  | error e => simp [hh] at h
  | ok r =>
    obtain ⟨cls, qtype, zones⟩ := r
    simp only [hh, rule] at h
    cases hb : body env b.body { t := { qclass := cls, qtype := qtype, zones := zones } } with
    | error e => simp [hb] at h
    | ok s =>
      simp only [hb] at h
      rw [body_eq_run] at hb
      exact ⟨cls, qtype, zones, s, rfl, hb, h⟩

theorem finish_ranger (env : Env Re Tm) (s : St Re Tm) (t : template Re Tm)
    (h : finish env s = .ok t) :
    t.ranger = if s.matchClients = [] then s.t.ranger.Insert anyNet else s.t.ranger := by
  rw [finish_eq] at h
  by_cases hc : s.t.answer.length = 0 ∧ s.t.authority.length = 0 ∧ s.t.rcode = RcodeSuccess
  · rw [if_pos hc] at h; cases h
  rw [if_neg hc] at h
  injection h with h
  subst h
  rw [fillRanger_ranger, (withRegex_fields env s.t).2.2.2.2.2.2.2.2.2]

theorem finish_regex (env : Env Re Tm) (s : St Re Tm) (t : template Re Tm)
    (h : finish env s = .ok t) :
    t.regex = if s.t.regex.length = 0 then [env.MustCompile ".*"] else s.t.regex := by
  rw [finish_eq] at h
  by_cases hc : s.t.answer.length = 0 ∧ s.t.authority.length = 0 ∧ s.t.rcode = RcodeSuccess
  · rw [if_pos hc] at h; cases h
  rw [if_neg hc] at h
  injection h with h
  subst h
  rw [(fillRanger_fields env _ s.matchClients).2.2.2.1]
  by_cases hr : s.t.regex.length = 0
  · simp [hr, List.length_eq_zero.mp hr]
  · simp [hr]

theorem run_mem_step (env : Env Re Tm) (ds : List Directive) (s s' : St Re Tm)
    (h : run env ds s = .ok s') (d : Directive) (hd : d ∈ ds) :
    ∃ s1 s2, step env d s1 = .ok s2 := by
  induction ds generalizing s with
  | nil => simp at hd
  | cons x xs ih =>
    obtain ⟨s1, h1, h2⟩ := run_cons_ok env x xs s s' h
    rcases List.mem_cons.mp hd with rfl | hmem
    · exact ⟨s, s1, h1⟩
    · exact ih s1 h2 hmem

/-- In a run that succeeds every `match-clients` has an argument. -/
theorem run_clients_args (env : Env Re Tm) (ds : List Directive) (s s' : St Re Tm)
    (h : run env ds s = .ok s') (d : Directive) (hd : d ∈ ds) (hk : d.key = "match-clients") :
    d.args ≠ [] := by
  obtain ⟨s1, s2, hs⟩ := run_mem_step env ds s s' h d hd
  rcases step_ok env d s1 s2 hs with ⟨hk', -⟩ | ⟨-, ha, -⟩ | ⟨hk', -⟩ | ⟨hk', -⟩ | ⟨hk', -⟩ |
    ⟨hk', -⟩ | ⟨hk', -⟩ | ⟨hk', -⟩
  all_goals first
    | exact ha
    | (rw [hk] at hk'; exact absurd hk' (by decide))

theorem argsOf_ne_nil (key : String) (ds : List Directive) (d : Directive) (hd : d ∈ ds)
    (hk : d.key = key) (ha : d.args ≠ []) : argsOf key ds ≠ [] := by
  induction ds with
  | nil => simp at hd
  | cons x xs ih =>
    rw [argsOf_cons]
    rcases List.mem_cons.mp hd with rfl | hmem
    · rw [if_pos hk]
      intro h
      exact ha (List.append_eq_nil.mp h).1
    · intro h
      exact ih hmem (List.append_eq_nil.mp h).2

theorem mem_of_map_ok {ε α : Type} (f : String → Except ε α) :
    ∀ (xs : List String) (ns : List α), xs.map f = ns.map .ok →
      ∀ n, n ∈ ns ↔ ∃ x ∈ xs, f x = .ok n := by
  intro xs
  induction xs with
  | nil =>
    intro ns h n
    cases ns with
    | nil => simp
    | cons a as => simp at h
  | cons x xs ih =>
    intro ns h n
    cases ns with
    | nil => simp at h
    | cons a as =>
      simp only [List.map_cons, List.cons.injEq] at h
      simp only [List.mem_cons, ih as h.2 n, exists_eq_or_imp, h.1, Except.ok.injEq]
      constructor
      · rintro (rfl | h')
        · exact Or.inl rfl
        · exact Or.inr h'
      · rintro (rfl | h')
        · exact Or.inl rfl
        · exact Or.inr h'

/-- The matcher of a rule compiled from a block without `match-clients`. -/
theorem compile_ranger_default (env : Env Re Tm) (keys : List String) (b : Block)
    (t : template Re Tm) (hc : compile env keys b = .ok t)
    (hno : ∀ d ∈ directives b.body, d.key ≠ "match-clients") :
    t.ranger = ⟨[anyNet]⟩ := by
  obtain ⟨cls, qtype, zones, s, -, hrun, hfin⟩ := compile_ok env keys b t hc
  have hm := run_matchClients_frame env _ _ _ hrun hno
  have hr := (run_const env _ _ _ hrun).2.2.2
  rw [finish_ranger env s t hfin, hm, hr]
  rfl

/-- The loop over the tokens of `match-clients` parses each token with
`net.ParseCIDR`, `any` in any letter case standing for `0.0.0.0/0`. -/
theorem clientNet_iff (env : Env Re Tm) (tok : String) (n : IPNet) :
    clientNet env tok = .ok n ↔
      ParseCIDR env (if ToLower tok = "any" then "0.0.0.0/0" else tok) = .ok n := by
  unfold clientNet
  simp only
  cases ParseCIDR env (if ToLower tok = "any" then "0.0.0.0/0" else tok) <;> simp

/-- The matcher of a rule compiled from a block with `match-clients` tokens is
the zero value: the networks of the tokens are in `matchClients` and in the
local copy only. -/
theorem compile_ranger_configured (env : Env Re Tm) (keys : List String) (b : Block)
    (t : template Re Tm) (hc : compile env keys b = .ok t)
    (hne : argsOf "match-clients" (directives b.body) ≠ []) :
    t.ranger = ⟨[]⟩ ∧
    ∃ cls qtype zones s, header env keys b.args = .ok (cls, qtype, zones) ∧
      body env b.body { t := { qclass := cls, qtype := qtype, zones := zones } } = .ok s ∧
      s.matchClients ≠ [] ∧
      (argsOf "match-clients" (directives b.body)).map
        (fun tok => ParseCIDR env (if ToLower tok = "any" then "0.0.0.0/0" else tok))
          = s.matchClients.map .ok := by
  obtain ⟨cls, qtype, zones, s, hh, hrun, hfin⟩ := compile_ok env keys b t hc
  obtain ⟨nets, hmap, hmc⟩ := run_matchClients env _ _ _ hrun
  have hr := (run_const env _ _ _ hrun).2.2.2
  simp only [List.nil_append] at hmc
  have hnets : nets ≠ [] := by
    intro h0
    rw [h0] at hmap
    simp only [List.map_nil, List.map_eq_nil_iff] at hmap
    exact hne hmap
  refine ⟨?_, cls, qtype, zones, s, hh, by rw [body_eq_run]; exact hrun, by rw [hmc]; exact hnets, ?_⟩
  · rw [finish_ranger env s t hfin, hmc, if_neg hnets, hr]
  · rw [hmc]
    exact (map_ok_congr _ _ (fun a n => clientNet_iff env a n) _ nets).mp hmap

/-- Outside `match-clients` an iteration neither reads nor writes the
`matchClients` slice. -/
theorem step_mc (env : Env Re Tm) (d : Directive) (t : template Re Tm) (mc mc' : List IPNet)
    (hne : d.key ≠ "match-clients") :
    step env d ⟨t, mc⟩ =
      match step env d ⟨t, mc'⟩ with
      | .error e => .error e
      | .ok s => .ok ⟨s.t, mc⟩ := by
  obtain ⟨key, args⟩ := d
  simp only at hne
  by_cases hr : key = "rcode"
  · subst hr
    cases args with
    | nil => simp [step_rcode_nil]
    | cons val rest =>
      simp only [step, if_true, List.take_succ_cons, List.take_zero, directive]
      cases hv : env.StringToRcode val <;> simp [directive]
  · rw [step_eq env key args _ hr, step_eq env key args _ hr, directive_cons env key args _ hr,
      directive_cons env key args _ hr]
    simp only [if_neg hne]
    split_ifs
    · rfl
    · split <;> rfl
    · rfl
    · split <;> rfl
    · rfl
    · split <;> rfl
    · rfl
    · split <;> rfl
    · rfl
    · rfl
    · rfl

theorem run_mc (env : Env Re Tm) (ds : List Directive) (t : template Re Tm) (mc mc' : List IPNet)
    (hne : ∀ d ∈ ds, d.key ≠ "match-clients") :
    run env ds ⟨t, mc⟩ =
      match run env ds ⟨t, mc'⟩ with
      | .error e => .error e
      | .ok s => .ok ⟨s.t, mc⟩ := by
  induction ds generalizing t with
  | nil => simp [run]
  | cons d ds ih =>
    simp only [run]
    rw [step_mc env d t mc mc' (hne d (List.mem_cons_self _ _))]
    cases hs : step env d ⟨t, mc'⟩ with
    | error e => rfl
    | ok s1 =>
      have hm : s1.matchClients = mc' :=
        step_matchClients_frame env d _ s1 hs (hne d (List.mem_cons_self _ _))
      obtain ⟨t1, m1⟩ := s1
      simp only at hm
      subst hm
      exact ih t1 (fun x hx => hne x (List.mem_cons_of_mem _ hx))

theorem directives_append (l1 l2 : List (List String)) :
    directives (l1 ++ l2) = directives l1 ++ directives l2 := by
  simp [directives]

theorem step_clients_any (env : Env Re Tm) (tok : String) (htok : ToLower tok = "any")
    (s : St Re Tm) :
    step env ⟨"match-clients", [tok]⟩ s = .ok { s with matchClients := s.matchClients ++ [anyNet] } := by
  rw [step_eq env _ _ _ (by decide), directive_cons env _ _ _ (by decide)]
  simp [appendAll, clientNet, htok, ParseCIDR]

/-! ## Zone names -/

theorem toLower_eq_dot (c : Char) : c.toLower = '.' ↔ c = '.' := by
  constructor
  · intro h
    unfold Char.toLower at h
    simp only at h
    split_ifs at h with hc
    · exfalso
      obtain ⟨h1, h2⟩ := hc
      generalize c.toNat = n at h h1 h2
      have h1' : 65 ≤ n := h1
      interval_cases n <;> revert h <;> decide
    · exact h
  · rintro rfl
    decide

theorem ToLower_append (z w : String) : ToLower (z ++ w) = ToLower z ++ ToLower w := by
  apply String.ext
  simp [ToLower]

theorem getLast_ToLower (z : String) :
    (ToLower z).data.getLast? = some '.' ↔ z.data.getLast? = some '.' := by
  simp only [ToLower, List.getLast?_map]
  cases z.data.getLast? with
  | none => simp
  | some c => simp [toLower_eq_dot]

/-- The normal form of a name is a function of its lower-cased spelling. -/
theorem Normalize_eq (z : String) :
    Normalize z =
      if (ToLower z).data.getLast? = some '.' then ToLower z else ToLower z ++ "." := by
  unfold Normalize
  by_cases h : z.data.getLast? = some '.'
  · rw [if_pos h, if_pos ((getLast_ToLower z).mpr h)]
  · rw [if_neg h, if_neg (fun h' => h ((getLast_ToLower z).mp h')), ToLower_append]
    rfl

theorem Normalize_of_ToLower (z z' : String) (h : ToLower z' = ToLower z) :
    Normalize z' = Normalize z := by
  rw [Normalize_eq, Normalize_eq, h]

theorem Normalize_dot (z : String) (h : z.data.getLast? ≠ some '.') :
    Normalize (z ++ ".") = Normalize z := by
  unfold Normalize
  rw [if_neg h]
  have : (z ++ ".").data.getLast? = some '.' := by simp
  rw [if_pos this]

theorem header_ok (env : Env Re Tm) (keys : List String) (args : List String)
    (cls qtype : Nat) (zones : List String) (h : header env keys args = .ok (cls, qtype, zones)) :
    ∃ cv tv zs, args = cv :: tv :: zs ∧ env.StringToClass cv = some cls ∧
      env.StringToType tv = some qtype ∧
      zones = (if zs.length = 0 then keys else zs).map Normalize := by
  unfold header at h
  cases args with
  | nil => simp at h
  | cons cv rest =>
    simp only at h
    cases hc : env.StringToClass cv with
    | none => simp [hc] at h
    | some c =>
      simp only [hc] at h
      cases rest with
      | nil => simp at h
      | cons tv zs =>
        simp only at h
        cases ht : env.StringToType tv with
        | none => simp [ht] at h
        | some q =>
          simp only [ht, Except.ok.injEq, Prod.mk.injEq] at h
          exact ⟨cv, tv, zs, rfl, by rw [hc, h.1], by rw [ht, h.2.1], h.2.2.symm⟩

theorem compile_header (env : Env Re Tm) (keys : List String) (b : Block) (t : template Re Tm)
    (h : compile env keys b = .ok t) :
    header env keys b.args = .ok (t.qclass, t.qtype, t.zones) := by
  unfold compile at h
  cases hh : header env keys b.args with
  | error e => simp [hh] at h
  | ok r =>
    obtain ⟨cls, qtype, zones⟩ := r
    simp only [hh] at h
    obtain ⟨h1, h2, h3⟩ := rule_header env cls qtype zones b.body t h
    rw [h1, h2, h3]

theorem map_Normalize_of_rel (zs zs' : List String)
    (hrel : List.Forall₂ (fun z z' =>
      ToLower z' = ToLower z ∨
      (ToLower z' = ToLower (z ++ ".") ∧ z.data.getLast? ≠ some '.') ∨
      (ToLower z = ToLower (z' ++ ".") ∧ z'.data.getLast? ≠ some '.')) zs zs') :
    zs'.map Normalize = zs.map Normalize := by
  induction hrel with
  | nil => rfl
  | cons hab _ ih =>
    simp only [List.map_cons, List.cons.injEq]
    refine ⟨?_, ih⟩
    rcases hab with hl | ⟨hl, hd⟩ | ⟨hl, hd⟩
    · exact Normalize_of_ToLower _ _ hl
    · rw [Normalize_of_ToLower _ _ hl, Normalize_dot _ hd]
    · rw [Normalize_of_ToLower _ _ hl, Normalize_dot _ hd]

/-! ## Response codes and record templates -/

/-- An `rcode` whose argument is no response-code name fails. -/
theorem step_rcode_error (env : Env Re Tm) (val : String) (rest : List String)
    (hbad : env.StringToRcode val = none) (s : St Re Tm) :
    ∃ e, step env ⟨"rcode", val :: rest⟩ s = .error e := by
  refine ⟨.Errf "unknown rcode %s" [val], ?_⟩
  simp only [step, if_true, List.take_succ_cons, List.take_zero, directive]
  simp [hbad]

/-- An `answer` with an argument that is no template fails. -/
theorem step_answer_error (env : Env Re Tm) (args : List String) (a : String) (ha : a ∈ args)
    (hbad : ∃ e, env.Parse "answer" a = .error e) (s : St Re Tm) :
    ∃ e, step env ⟨"answer", args⟩ s = .error e := by
  rw [step_eq env "answer" args s (by decide), directive_cons env "answer" args s (by decide)]
  simp only [show ¬ ("answer" = "match") by decide, show ¬ ("answer" = "match-clients") by decide, if_false, if_true]
  have hl : ¬ args.length = 0 := by
    intro h0
    rw [List.length_eq_zero.mp h0] at ha
    simp at ha
  rw [if_neg hl]
  obtain ⟨e, he⟩ := appendAll_error (fun x =>
      match env.Parse "answer" x with
      | .error e => .error (.Errf "could not compile template: %s, %v" [lastVal "answer" args, e])
      | .ok tmpl => (.ok tmpl : Except Err Tm)) args s.t.answer a ha
    (by
      obtain ⟨e, he⟩ := hbad
      exact ⟨.Errf "could not compile template: %s, %v" [lastVal "answer" args, e], by simp only [he]⟩)
  rw [he]
  exact ⟨e, rfl⟩

/-- An `additional` with an argument that is no template fails. -/
theorem step_additional_error (env : Env Re Tm) (args : List String) (a : String) (ha : a ∈ args)
    (hbad : ∃ e, env.Parse "additional" a = .error e) (s : St Re Tm) :
    ∃ e, step env ⟨"additional", args⟩ s = .error e := by
  rw [step_eq env "additional" args s (by decide), directive_cons env "additional" args s (by decide)]
  simp only [show ¬ ("additional" = "match") by decide, show ¬ ("additional" = "match-clients") by decide, show ¬ ("additional" = "answer") by decide, if_false, if_true]
  have hl : ¬ args.length = 0 := by
    intro h0
    rw [List.length_eq_zero.mp h0] at ha
    simp at ha
  rw [if_neg hl]
  obtain ⟨e, he⟩ := appendAll_error (fun x =>
      match env.Parse "additional" x with
      | .error e => .error (.Errf "could not compile template: %s, %v\n" [lastVal "additional" args, e])
      | .ok tmpl => (.ok tmpl : Except Err Tm)) args s.t.additional a ha
    (by
      obtain ⟨e, he⟩ := hbad
      exact ⟨.Errf "could not compile template: %s, %v\n" [lastVal "additional" args, e], by simp only [he]⟩)
  rw [he]
  exact ⟨e, rfl⟩

/-- An `authority` with an argument that is no template fails. -/
theorem step_authority_error (env : Env Re Tm) (args : List String) (a : String) (ha : a ∈ args)
    (hbad : ∃ e, env.Parse "authority" a = .error e) (s : St Re Tm) :
    ∃ e, step env ⟨"authority", args⟩ s = .error e := by
  rw [step_eq env "authority" args s (by decide), directive_cons env "authority" args s (by decide)]
  simp only [show ¬ ("authority" = "match") by decide, show ¬ ("authority" = "match-clients") by decide, show ¬ ("authority" = "answer") by decide, show ¬ ("authority" = "additional") by decide, if_false, if_true]
  have hl : ¬ args.length = 0 := by
    intro h0
    rw [List.length_eq_zero.mp h0] at ha
    simp at ha
  rw [if_neg hl]
  obtain ⟨e, he⟩ := appendAll_error (fun x =>
      match env.Parse "authority" x with
      | .error e => .error (.Errf "could not compile template: %s, %v\n" [lastVal "authority" args, e])
      | .ok tmpl => (.ok tmpl : Except Err Tm)) args s.t.authority a ha
    (by
      obtain ⟨e, he⟩ := hbad
      exact ⟨.Errf "could not compile template: %s, %v\n" [lastVal "authority" args, e], by simp only [he]⟩)
  rw [he]
  exact ⟨e, rfl⟩

/-! ## Fallthrough and upstream -/

theorem okPrefix_of_firstErr {ε α : Type} (l : List (Except ε α)) (h : firstErr l = none) :
    (okPrefix l).map .ok = l := by
  induction l with
  | nil => rfl
  | cons x xs ih =>
    cases x with
    | error e => simp [firstErr] at h
    | ok a =>
      simp only [firstErr] at h
      simp [okPrefix, ih h]

/-- Without an error `templateParse` returns the Rule of every block. -/
theorem templateParse_full (env : Env Re Tm) (c : Controller)
    (h : (templateParse env c).2 = none) :
    (templateParse env c).1.Templates.map .ok = c.blocks.map (compile env c.ServerBlockKeys) := by
  simp only [templateParse, blocks_err, blocks_templates, List.nil_append] at h ⊢
  exact okPrefix_of_firstErr _ h

/-- The fallthrough set a run leaves is what the last `fallthrough` set. -/
theorem run_fall_last (env : Env Re Tm) (ds : List Directive) (s s' : St Re Tm)
    (h : run env ds s = .ok s') :
    match (ds.filter (fun d => d.key = "fallthrough")).getLast? with
    | none => s'.t.fall = s.t.fall
    | some d => ∃ before, s'.t.fall = env.SetZonesFromArgs before d.args := by
  induction ds generalizing s with
  | nil => simp [run] at h; subst h; simp
  | cons d ds ih =>
    obtain ⟨s1, h1, h2⟩ := run_cons_ok env d ds s s' h
    have ih1 := ih s1 h2
    by_cases hk : d.key = "fallthrough"
    · have hf : (d :: ds).filter (fun d => d.key = "fallthrough")
          = d :: ds.filter (fun d => d.key = "fallthrough") := by simp [hk]
      rw [hf]
      cases hl : ds.filter (fun d => d.key = "fallthrough") with
      | nil =>
        rw [hl] at ih1
        simp only [List.getLast?_nil] at ih1
        simp only [List.getLast?_singleton]
        rcases step_ok env d s s1 h1 with ⟨hk', -⟩ | ⟨hk', -⟩ | ⟨hk', -⟩ | ⟨hk', -⟩ | ⟨hk', -⟩ |
          ⟨hk', -⟩ | ⟨-, rfl⟩ | ⟨hk', -⟩
        all_goals first
          | (rw [hk] at hk'; exact absurd hk' (by decide))
          | exact ⟨s.t.fall, ih1⟩
      | cons x xs =>
        rw [hl] at ih1
        rw [List.getLast?_cons_cons]
        exact ih1
    · have hf : (d :: ds).filter (fun d => d.key = "fallthrough")
          = ds.filter (fun d => d.key = "fallthrough") := by simp [hk]
      rw [hf]
      have h3 := step_fall_frame env d s s1 h1 hk
      cases hl : (ds.filter (fun d => d.key = "fallthrough")).getLast? with
      | none => rw [hl] at ih1; simp only at ih1 ⊢; rw [ih1, h3]
      | some x => rw [hl] at ih1; exact ih1

theorem step_upstream (env : Env Re Tm) (args : List String) (s : St Re Tm) :
    step env ⟨"upstream", args⟩ s = .ok { s with t := { s.t with upstream := some {} } } := by
  rw [step_eq env _ _ _ (by decide), directive_cons env _ _ _ (by decide)]
  simp

theorem step_fallthrough (env : Env Re Tm) (args : List String) (s : St Re Tm) :
    step env ⟨"fallthrough", args⟩ s =
      .ok { s with t := { s.t with fall := env.SetZonesFromArgs s.t.fall args } } := by
  rw [step_eq env _ _ _ (by decide), directive_cons env _ _ _ (by decide)]
  simp

/-- A run leaves an upstream capability exactly when it started with one or
met an `upstream`. -/
theorem run_upstream (env : Env Re Tm) (ds : List Directive) (s s' : St Re Tm)
    (h : run env ds s = .ok s') :
    s'.t.upstream.isSome = true ↔
      s.t.upstream.isSome = true ∨ ∃ d ∈ ds, d.key = "upstream" := by
  induction ds generalizing s with
  | nil => simp [run] at h; subst h; simp
  | cons d ds ih =>
    obtain ⟨s1, h1, h2⟩ := run_cons_ok env d ds s s' h
    rw [ih s1 h2]
    by_cases hk : d.key = "upstream"
    · have hs1 : s1.t.upstream.isSome = true := by
        rcases step_ok env d s s1 h1 with ⟨hk', -⟩ | ⟨hk', -⟩ | ⟨hk', -⟩ | ⟨hk', -⟩ | ⟨hk', -⟩ |
          ⟨hk', -⟩ | ⟨hk', -⟩ | ⟨-, rfl⟩
        all_goals first
          | (rw [hk] at hk'; exact absurd hk' (by decide))
          | rfl
      constructor
      · intro _
        exact Or.inr ⟨d, List.mem_cons_self _ _, hk⟩
      · intro _
        exact Or.inl hs1
    · rw [step_upstream_frame env d s s1 h1 hk]
      constructor
      · rintro (h | ⟨x, hx, hkx⟩)
        · exact Or.inl h
        · exact Or.inr ⟨x, List.mem_cons_of_mem _ hx, hkx⟩
      · rintro (h | ⟨x, hx, hkx⟩)
        · exact Or.inl h
        · rcases List.mem_cons.mp hx with rfl | hmem
          · exact absurd hkx hk
          · exact Or.inr ⟨x, hmem, hkx⟩

theorem directives_insert (l1 l2 : List (List String)) (line : List String) :
    directives (l1 ++ line :: l2) = directives l1 ++ (lineDirectives line ++ directives l2) := by
  simp [directives]

theorem lineDirectives_single (key : String) (args : List String) (hk : key ≠ "rcode") :
    lineDirectives (key :: args) = [⟨key, args⟩] := by
  rw [lineDirectives.eq_def]
  simp [hk]

/-! ## Keywords and argument counts -/

/-- A keyword outside the eight of the `switch` takes the `default` case. -/
theorem step_unknown_error (env : Env Re Tm) (d : Directive) (s : St Re Tm)
    (hk : d.key ≠ "match" ∧ d.key ≠ "match-clients" ∧ d.key ≠ "answer" ∧ d.key ≠ "additional" ∧
      d.key ≠ "authority" ∧ d.key ≠ "rcode" ∧ d.key ≠ "fallthrough" ∧ d.key ≠ "upstream") :
    step env d s = .error .ArgErr := by
  obtain ⟨key, args⟩ := d
  obtain ⟨h1, h2, h3, h4, h5, h6, h7, h8⟩ := hk
  simp only at h1 h2 h3 h4 h5 h6 h7 h8
  rw [step_eq env key args s h6, directive_cons env key args s h6]
  simp only [if_neg h1, if_neg h2, if_neg h3, if_neg h4, if_neg h5, if_neg h7, if_neg h8]

/-- The six keywords that need an argument fail without one. -/
theorem step_noargs_error (env : Env Re Tm) (key : String) (s : St Re Tm)
    (hk : key = "match" ∨ key = "match-clients" ∨ key = "answer" ∨ key = "additional" ∨
      key = "authority" ∨ key = "rcode") :
    step env ⟨key, []⟩ s = .error .ArgErr := by
  rcases hk with rfl | rfl | rfl | rfl | rfl | rfl
  · rw [step_eq env _ _ _ (by decide), directive_cons env _ _ _ (by decide)]; simp
  · rw [step_eq env _ _ _ (by decide), directive_cons env _ _ _ (by decide)]; simp
  · rw [step_eq env _ _ _ (by decide), directive_cons env _ _ _ (by decide)]; simp
  · rw [step_eq env _ _ _ (by decide), directive_cons env _ _ _ (by decide)]; simp
  · rw [step_eq env _ _ _ (by decide), directive_cons env _ _ _ (by decide)]; simp
  · exact step_rcode_nil env s

/-- An iteration does the same from two states that differ in the fallthrough
set and the upstream capability only. -/
theorem step_neutral (env : Env Re Tm) (d : Directive) (t : template Re Tm) (mc : List IPNet)
    (fa : List String) (up : Option Upstream) :
    match step env d ⟨t, mc⟩, step env d ⟨{ t with fall := fa, upstream := up }, mc⟩ with
    | .ok a, .ok b => ∃ fa' up',
        b = ⟨{ a.t with fall := fa', upstream := up' }, a.matchClients⟩
    | .error _, .error _ => True
    | _, _ => False := by
  obtain ⟨key, args⟩ := d
  by_cases hr : key = "rcode"
  · subst hr
    cases args with
    | nil => simp [step_rcode_nil]
    | cons val rest =>
      simp only [step, if_true, List.take_succ_cons, List.take_zero, directive]
      cases hv : env.StringToRcode val with
      | none => simp
      | some r => simp only [directive]; exact ⟨fa, up, rfl⟩
  · rw [step_eq env key args _ hr, step_eq env key args _ hr, directive_cons env key args _ hr,
      directive_cons env key args _ hr]
    split_ifs
    · trivial
    · simp only
      cases hA : appendAll (fun regex =>
          match env.Compile regex with
          | .error e => .error (.Errf "could not parse regex: %s, %v" [regex, e])
          | .ok r => (.ok r : Except Err Re)) args t.regex with
      | error e => trivial
      | ok rs => exact ⟨fa, up, rfl⟩
    · trivial
    · simp only
      cases hA : appendAll (clientNet env) args mc with
      | error e => trivial
      | ok rs => exact ⟨fa, up, rfl⟩
    · trivial
    · simp only
      cases hA : appendAll (fun answer =>
          match env.Parse "answer" answer with
          | .error e => .error (.Errf "could not compile template: %s, %v" [lastVal key args, e])
          | .ok tmpl => (.ok tmpl : Except Err Tm)) args t.answer with
      | error e => trivial
      | ok rs => exact ⟨fa, up, rfl⟩
    · trivial
    · simp only
      cases hA : appendAll (fun additional =>
          match env.Parse "additional" additional with
          | .error e => .error (.Errf "could not compile template: %s, %v\n" [lastVal key args, e])
          | .ok tmpl => (.ok tmpl : Except Err Tm)) args t.additional with
      | error e => trivial
      | ok rs => exact ⟨fa, up, rfl⟩
    · trivial
    · simp only
      cases hA : appendAll (fun authority =>
          match env.Parse "authority" authority with
          | .error e => .error (.Errf "could not compile template: %s, %v\n" [lastVal key args, e])
          | .ok tmpl => (.ok tmpl : Except Err Tm)) args t.authority with
      | error e => trivial
      | ok rs => exact ⟨fa, up, rfl⟩
    · exact ⟨_, up, rfl⟩
    · exact ⟨fa, _, rfl⟩
    · trivial

theorem run_neutral (env : Env Re Tm) (ds : List Directive) (t : template Re Tm)
    (mc : List IPNet) (fa : List String) (up : Option Upstream) :
    match run env ds ⟨t, mc⟩, run env ds ⟨{ t with fall := fa, upstream := up }, mc⟩ with
    | .ok a, .ok b => ∃ fa' up',
        b = ⟨{ a.t with fall := fa', upstream := up' }, a.matchClients⟩
    | .error _, .error _ => True
    | _, _ => False := by
  induction ds generalizing t mc fa up with
  | nil => exact ⟨fa, up, rfl⟩
  | cons d ds ih =>
    simp only [run]
    have h := step_neutral env d t mc fa up
    cases h1 : step env d ⟨t, mc⟩ with
    | error e =>
      cases h2 : step env d ⟨{ t with fall := fa, upstream := up }, mc⟩ with
      | error e' => trivial
      | ok b => rw [h1, h2] at h; exact h.elim
    | ok a =>
      cases h2 : step env d ⟨{ t with fall := fa, upstream := up }, mc⟩ with
      | error e' => rw [h1, h2] at h; exact h.elim
      | ok b =>
        rw [h1, h2] at h
        obtain ⟨fa', up', rfl⟩ := h
        obtain ⟨ta, mca⟩ := a
        exact ih ta mca fa' up'

theorem finish_neutral (env : Env Re Tm) (t : template Re Tm) (mc : List IPNet)
    (fa : List String) (up : Option Upstream) (h : ∃ r, finish env ⟨t, mc⟩ = .ok r) :
    ∃ r, finish env ⟨{ t with fall := fa, upstream := up }, mc⟩ = .ok r := by
  obtain ⟨r, hr⟩ := h
  rw [finish_eq] at hr ⊢
  by_cases hc : t.answer.length = 0 ∧ t.authority.length = 0 ∧ t.rcode = RcodeSuccess
  · rw [if_pos hc] at hr
    cases hr
  · rw [if_neg hc]
    exact ⟨_, rfl⟩

/-- A line whose keyword changes the fallthrough set or the upstream capability
only, and never fails, can be put anywhere in a block that compiles. -/
theorem compile_insert_ok (env : Env Re Tm) (keys : List String) (head : List String)
    (l1 l2 : List (List String)) (line : List String) (d : Directive)
    (hline : lineDirectives line = [d])
    (hd : ∀ (t : template Re Tm) (mc : List IPNet), ∃ fa up,
      step env d ⟨t, mc⟩ = .ok ⟨{ t with fall := fa, upstream := up }, mc⟩)
    (h : ∃ t, compile env keys ⟨head, l1 ++ l2⟩ = .ok t) :
    ∃ t, compile env keys ⟨head, l1 ++ line :: l2⟩ = .ok t := by
  obtain ⟨t, ht⟩ := h
  obtain ⟨cls, qtype, zones, s, hh, hrun, hfin⟩ := compile_ok env keys _ t ht
  simp only at hh hrun
  rw [directives_append, run_append] at hrun
  unfold compile
  simp only [hh, rule, body_eq_run, directives_insert, hline, run_append]
  cases h1 : run env (directives l1) { t := { qclass := cls, qtype := qtype, zones := zones } } with
  | error e => rw [h1] at hrun; cases hrun
  | ok s1 =>
    rw [h1] at hrun
    simp only at hrun ⊢
    obtain ⟨t1, mc1⟩ := s1
    obtain ⟨fa, up, hstep⟩ := hd t1 mc1
    simp only [List.singleton_append, run, hstep]
    have hn := run_neutral env (directives l2) t1 mc1 fa up
    rw [hrun] at hn
    cases h2 : run env (directives l2) ⟨{ t1 with fall := fa, upstream := up }, mc1⟩ with
    | error e => rw [h2] at hn; exact hn.elim
    | ok s2 =>
      rw [h2] at hn
      obtain ⟨fa', up', rfl⟩ := hn
      obtain ⟨ts, mcs⟩ := s
      exact finish_neutral env ts mcs fa' up' ⟨t, hfin⟩

/-! ## The handler's zones -/

theorem blocks_zones (env : Env Re Tm) (keys : List String) (bs : List Block)
    (handler : Handler Re Tm)
    (h0 : handler.Zones = (handler.Templates.map (fun t => t.zones)).flatten)
    (h : (blocks env keys bs handler).2 = none) :
    (blocks env keys bs handler).1.Zones =
      ((blocks env keys bs handler).1.Templates.map (fun t => t.zones)).flatten := by
  induction bs generalizing handler with
  | nil => simpa [blocks] using h0
  | cons b bs ih =>
    simp only [blocks] at h ⊢
    cases hc : compile env keys b with
    | error e =>
      obtain ⟨h1, -⟩ := block_of_error env keys b handler e hc
      rcases hb : block env keys b handler with ⟨h', o⟩
      rw [hb] at h1 h
      simp only at h1
      subst h1
      simp at h
    | ok t =>
      rw [block_of_ok env keys b handler t hc] at h ⊢
      simp only at h ⊢
      exact ih _ (by simp [h0]) h

/-! ## Memory -/

theorem read_alloc_old (σ : Store) (xs : List String) (a : Nat) (ha : a < σ.length) :
    Store.read (Store.alloc σ xs).1 a = Store.read σ a := by
  simp [Store.read, Store.alloc, List.getElem?_append_left ha]

theorem read_alloc_new (σ : Store) (xs : List String) :
    Store.read (Store.alloc σ xs).1 (Store.alloc σ xs).2 = xs := by
  simp [Store.read, Store.alloc]

theorem read_set_ne (σ : Store) (xs : List String) (a b : Nat) (hab : a ≠ b) :
    Store.read (σ.set a xs) b = Store.read σ b := by
  simp [Store.read, List.getElem?_set_ne hab]

theorem read_set_same (σ : Store) (xs : List String) (a : Nat) (ha : a < σ.length) :
    Store.read (σ.set a xs) a = xs := by
  simp [Store.read, List.getElem?_set_self ha]

/-- The loop of lines 68-70 after `n` rounds: the first `n` elements of the
slice are normalized, the other slices are as before. -/
theorem normalize_rounds (σ : Store) (z : Nat) (hz : z < σ.length) (n : Nat) :
    let σn := (List.range n).foldl
      (fun σ i => Store.write σ z i (Normalize (((Store.read σ z)[i]?).getD ""))) σ
    σn.length = σ.length ∧ (∀ a, a ≠ z → Store.read σn a = Store.read σ a) ∧
    ∀ i, (Store.read σn z)[i]? =
      if i < n then ((Store.read σ z)[i]?).map Normalize else (Store.read σ z)[i]? := by
  induction n with
  | zero => simp
  | succ n ih =>
    obtain ⟨hlen, hother, helem⟩ := ih
    simp only [List.range_succ, List.foldl_append, List.foldl_cons, List.foldl_nil]
    generalize (List.range n).foldl
      (fun σ i => Store.write σ z i (Normalize (((Store.read σ z)[i]?).getD ""))) σ = σn
      at hlen hother helem
    refine ⟨by simp [Store.write, hlen], ?_, ?_⟩
    · intro a ha
      rw [Store.write, read_set_ne _ _ _ _ (Ne.symm ha), hother a ha]
    · intro i
      rw [Store.write, read_set_same _ _ _ (by rw [hlen]; exact hz), List.getElem?_set]
      have hn := helem n
      simp only [Nat.lt_irrefl, if_false] at hn
      by_cases hi : n = i
      · subst hi
        rw [if_pos rfl, if_pos (Nat.lt_succ_self _), hn]
        by_cases hl : n < (Store.read σn z).length
        · rw [if_pos hl]
          have hsome : ∃ x, (Store.read σn z)[n]? = some x := ⟨_, List.getElem?_eq_getElem hl⟩
          obtain ⟨x, hx⟩ := hsome
          rw [hx] at hn
          rw [← hn]
          rfl
        · rw [if_neg hl]
          have hnone : (Store.read σn z)[n]? = none := List.getElem?_eq_none (Nat.le_of_not_lt hl)
          rw [hnone] at hn
          rw [← hn]
          rfl
      · rw [if_neg hi, helem i]
        by_cases hlt : i < n
        · rw [if_pos hlt, if_pos (Nat.lt_succ_of_lt hlt)]
        · have : ¬ i < n + 1 := by omega
          rw [if_neg hlt, if_neg this]

theorem normalizeAll_spec (σ : Store) (z : Nat) (hz : z < σ.length) :
    (normalizeAll σ z).length = σ.length ∧
    (∀ a, a ≠ z → Store.read (normalizeAll σ z) a = Store.read σ a) ∧
    Store.read (normalizeAll σ z) z = (Store.read σ z).map Normalize := by
  obtain ⟨h1, h2, h3⟩ := normalize_rounds σ z hz (Store.read σ z).length
  refine ⟨h1, h2, ?_⟩
  apply List.ext_getElem?
  intro i
  rw [normalizeAll, h3 i, List.getElem?_map]
  by_cases hi : i < (Store.read σ z).length
  · rw [if_pos hi]
  · rw [if_neg hi, List.getElem?_eq_none (Nat.le_of_not_lt hi)]
    rfl

theorem zonesSlice_eq (σ : Store) (keys : Nat) (args : List String) :
    zonesSlice σ keys args =
      if args.length = 0 then
        (normalizeAll (Store.copy (σ ++ [args] ++
            [List.replicate (Store.read (σ ++ [args]) keys).length ""]) (σ.length + 1) keys)
          (σ.length + 1), σ.length + 1)
      else (normalizeAll (σ ++ [args]) σ.length, σ.length) := by
  have hnew : Store.read (σ ++ [args]) σ.length = args := read_alloc_new σ args
  by_cases h : args.length = 0
  · simp [zonesSlice, Store.alloc, hnew, h]
  · simp [zonesSlice, Store.alloc, hnew, h]

/-- Lines 63-70 leave every slice that existed before as it was, and `zones`
holds the normalized tokens, or the normalized keys when there are no tokens. -/
theorem zonesSlice_spec (σ : Store) (keys : Nat) (hk : keys < σ.length) (args : List String) :
    σ.length ≤ (zonesSlice σ keys args).1.length ∧
    (∀ a, a < σ.length → Store.read (zonesSlice σ keys args).1 a = Store.read σ a) ∧
    Store.read (zonesSlice σ keys args).1 (zonesSlice σ keys args).2 =
      (if args.length = 0 then Store.read σ keys else args).map Normalize := by
  rw [zonesSlice_eq]
  have hold : ∀ a, a < σ.length → Store.read (σ ++ [args]) a = Store.read σ a :=
    fun a ha => read_alloc_old σ args a ha
  by_cases h : args.length = 0
  · simp only [if_pos h]
    have hlen1 : (σ ++ [args] ++
        [List.replicate (Store.read (σ ++ [args]) keys).length ""]).length = σ.length + 2 := by
      simp
    have hmade : Store.read (σ ++ [args] ++
        [List.replicate (Store.read (σ ++ [args]) keys).length ""]) (σ.length + 1) =
        List.replicate (Store.read σ keys).length "" := by
      have := read_alloc_new (σ ++ [args]) (List.replicate (Store.read (σ ++ [args]) keys).length "")
      simp only [Store.alloc, List.length_append, List.length_singleton] at this
      rw [this, hold keys hk]
    have hold2 : ∀ a, a < σ.length → Store.read (σ ++ [args] ++
        [List.replicate (Store.read (σ ++ [args]) keys).length ""]) a = Store.read σ a := by
      intro a ha
      have := read_alloc_old (σ ++ [args])
        (List.replicate (Store.read (σ ++ [args]) keys).length "") a (by simp; omega)
      simp only [Store.alloc] at this
      rw [this, hold a ha]
    have hcl : (Store.copy (σ ++ [args] ++
        [List.replicate (Store.read (σ ++ [args]) keys).length ""]) (σ.length + 1) keys).length
        = σ.length + 2 := by
      simp [Store.copy]
    have hcopy : Store.read (Store.copy (σ ++ [args] ++
        [List.replicate (Store.read (σ ++ [args]) keys).length ""]) (σ.length + 1) keys)
        (σ.length + 1) = Store.read σ keys := by
      rw [Store.copy]
      rw [read_set_same _ _ _ (by rw [hlen1]; omega), hmade, hold2 keys hk]
      simp
    have hcold : ∀ a, a < σ.length → Store.read (Store.copy (σ ++ [args] ++
        [List.replicate (Store.read (σ ++ [args]) keys).length ""]) (σ.length + 1) keys) a
        = Store.read σ a := by
      intro a ha
      rw [Store.copy]
      rw [read_set_ne _ _ _ _ (by omega), hold2 a ha]
    obtain ⟨n1, n2, n3⟩ := normalizeAll_spec _ (σ.length + 1) (by rw [hcl]; omega)
    refine ⟨by rw [n1, hcl]; omega, ?_, ?_⟩
    · intro a ha
      rw [n2 a (by omega), hcold a ha]
    · rw [n3, hcopy]
  · simp only [if_neg h]
    obtain ⟨n1, n2, n3⟩ := normalizeAll_spec (σ ++ [args]) σ.length (by simp)
    refine ⟨by rw [n1]; simp, ?_, ?_⟩
    · intro a ha
      rw [n2 a (by omega), hold a ha]
    · have hnew := read_alloc_new σ args
      simp only [Store.alloc] at hnew
      rw [n3, hnew]

/-- One iteration with the slices in memory does to the handler what `block`
does with the keys read from memory, and leaves the slices that existed. -/
theorem blockS_spec (env : Env Re Tm) (keys : Nat) (b : Block) (σ : Store)
    (handler : Handler Re Tm) (hk : keys < σ.length) :
    (blockS env keys b σ handler).2 = block env (Store.read σ keys) b handler ∧
    σ.length ≤ (blockS env keys b σ handler).1.length ∧
    ∀ a, a < σ.length → Store.read (blockS env keys b σ handler).1 a = Store.read σ a := by
  unfold blockS block header
  cases b.args with
  | nil => exact ⟨rfl, Nat.le_refl _, fun _ _ => rfl⟩
  | cons cv rest =>
    simp only
    cases env.StringToClass cv with
    | none => exact ⟨rfl, Nat.le_refl _, fun _ _ => rfl⟩
    | some cls =>
      simp only
      cases rest with
      | nil => exact ⟨rfl, Nat.le_refl _, fun _ _ => rfl⟩
      | cons tv zs =>
        simp only
        cases env.StringToType tv with
        | none => exact ⟨rfl, Nat.le_refl _, fun _ _ => rfl⟩
        | some qtype =>
          simp only
          obtain ⟨h1, h2, h3⟩ := zonesSlice_spec σ keys hk zs
          rw [h3]
          cases rule env cls qtype
            (List.map Normalize (if zs.length = 0 then Store.read σ keys else zs)) b.body with
          | error e => exact ⟨rfl, h1, h2⟩
          | ok t => exact ⟨rfl, h1, h2⟩

theorem blocksS_spec (env : Env Re Tm) (keys : Nat) (bs : List Block) (σ : Store)
    (handler : Handler Re Tm) (hk : keys < σ.length) :
    (blocksS env keys bs σ handler).2 = blocks env (Store.read σ keys) bs handler ∧
    σ.length ≤ (blocksS env keys bs σ handler).1.length ∧
    ∀ a, a < σ.length → Store.read (blocksS env keys bs σ handler).1 a = Store.read σ a := by
  induction bs generalizing σ handler with
  | nil => exact ⟨rfl, Nat.le_refl _, fun _ _ => rfl⟩
  | cons b bs ih =>
    obtain ⟨h1, h2, h3⟩ := blockS_spec env keys b σ handler hk
    simp only [blocksS, blocks]
    rcases hb : blockS env keys b σ handler with ⟨σ1, handler1, o⟩
    rw [hb] at h1 h2 h3
    simp only at h1 h2 h3
    rw [← h1]
    cases o with
    | some e => exact ⟨rfl, h2, h3⟩
    | none =>
      simp only
      obtain ⟨i1, i2, i3⟩ := ih σ1 handler1 (Nat.lt_of_lt_of_le hk h2)
      rw [h3 keys hk] at i1
      refine ⟨i1, Nat.le_trans h2 i2, ?_⟩
      intro a ha
      rw [i3 a (Nat.lt_of_lt_of_le ha h2), h3 a ha]

/-! ## The claims -/

/-- C1 (counterexample): the block `template IN A { additional x }` is
otherwise valid (its class and type resolve, its directive compiles) and has one
template in the additional list, yet `templateParse` returns the error of line
186 and appends no Rule. -/
theorem additional_only_is_rejected :
    header sampleEnv ["example.org"] ["IN", "A"] = .ok (1, 1, ["example.org."]) ∧
    (∃ s, body sampleEnv [["additional", "x"]]
        { t := { qclass := 1, qtype := 1, zones := ["example.org."] } } = .ok s ∧
      s.t.additional = ["x"]) ∧
    templateParse sampleEnv ⟨["example.org"], [⟨["IN", "A"], [["additional", "x"]]⟩]⟩ =
      (⟨["example.org."], []⟩, some (.Errf "no answer section for template found: %v" [])) :=
  ⟨rfl, ⟨_, rfl, rfl⟩, rfl⟩

/-- C1 (amended): a block whose header resolves and whose directives all
compile, leaving at least one record template in one of the three lists,
compiles, and `templateParse` appends its Rule to the rules of the blocks before
it, when one of the templates is in the answer or the authority list or the
response code is not success; when all its templates are in the additional list
and the response code is success, `templateParse` returns the error of line 186
and the rules of the blocks before it, with no Rule for the block. -/
theorem templates_and_the_guard (env : Env Re Tm) (keys : List String) (pre : List Block)
    (b : Block) (handler : Handler Re Tm) (cls qtype : Nat) (zones : List String) (s : St Re Tm)
    (hpre : templateParse env ⟨keys, pre⟩ = (handler, none))
    (hh : header env keys b.args = .ok (cls, qtype, zones))
    (hb : body env b.body { t := { qclass := cls, qtype := qtype, zones := zones } } = .ok s)
    (hany : s.t.answer ≠ [] ∨ s.t.authority ≠ [] ∨ s.t.additional ≠ []) :
    ((s.t.answer ≠ [] ∨ s.t.authority ≠ [] ∨ s.t.rcode ≠ RcodeSuccess) →
      ∃ t, compile env keys b = .ok t ∧
        templateParse env ⟨keys, pre ++ [b]⟩ =
          ({ Zones := handler.Zones ++ zones, Templates := handler.Templates ++ [t] }, none)) ∧
    ((s.t.answer = [] ∧ s.t.authority = [] ∧ s.t.rcode = RcodeSuccess) →
      s.t.additional ≠ [] ∧
      compile env keys b = .error (.Errf "no answer section for template found: %v" []) ∧
      templateParse env ⟨keys, pre ++ [b]⟩ =
        ({ Zones := handler.Zones ++ zones, Templates := handler.Templates },
          some (.Errf "no answer section for template found: %v" []))) := by
  have hc : compile env keys b = finish env s := by
    simp [compile, hh, rule, hb]
  constructor
  · intro ht
    have hne : ¬ (s.t.answer.length = 0 ∧ s.t.authority.length = 0 ∧ s.t.rcode = RcodeSuccess) := by
      rintro ⟨h1, h2, h3⟩
      rcases ht with ht | ht | ht
      · exact ht (List.length_eq_zero.mp h1)
      · exact ht (List.length_eq_zero.mp h2)
      · exact ht h3
    rw [finish_eq, if_neg hne] at hc
    refine ⟨_, hc, ?_⟩
    have hz := (rule_header env cls qtype zones b.body _ (by simpa [compile, hh] using hc)).2.2
    simp only [templateParse] at hpre ⊢
    rw [blocks_append, hpre]
    simp only [blocks, block_of_ok env keys b handler _ hc, hz]
  · rintro ⟨h1, h2, h3⟩
    have hg : s.t.answer.length = 0 ∧ s.t.authority.length = 0 ∧ s.t.rcode = RcodeSuccess :=
      ⟨by rw [h1]; rfl, by rw [h2]; rfl, h3⟩
    rw [finish_eq, if_pos hg] at hc
    refine ⟨?_, hc, ?_⟩
    · rcases hany with h | h | h
      · exact absurd h1 h
      · exact absurd h2 h
      · exact h
    · simp only [templateParse] at hpre ⊢
      rw [blocks_append, hpre]
      simp only [blocks, block, hh, rule, hb, finish_eq, if_pos hg]

/-- C1 (amended), after no other block: at `template IN A { authority x }`, at
`template IN A { additional x ; rcode NXDOMAIN }` and at
`template IN A { additional x }`. -/
theorem templates_and_the_guard_witness :
    (∃ t, compile sampleEnv ["example.org"] ⟨["IN", "A"], [["authority", "x"]]⟩ = .ok t ∧
      templateParse sampleEnv ⟨["example.org"], [] ++ [⟨["IN", "A"], [["authority", "x"]]⟩]⟩ =
        ({ Zones := [] ++ ["example.org."], Templates := [] ++ [t] }, none)) ∧
    (∃ t, compile sampleEnv ["example.org"]
        ⟨["IN", "A"], [["additional", "x"], ["rcode", "NXDOMAIN"]]⟩ = .ok t ∧
      templateParse sampleEnv ⟨["example.org"],
        [] ++ [⟨["IN", "A"], [["additional", "x"], ["rcode", "NXDOMAIN"]]⟩]⟩ =
        ({ Zones := [] ++ ["example.org."], Templates := [] ++ [t] }, none)) ∧
    templateParse sampleEnv ⟨["example.org"], [] ++ [⟨["IN", "A"], [["additional", "x"]]⟩]⟩ =
      (({ Zones := [] ++ ["example.org."], Templates := [] } : Handler String String),
        some (.Errf "no answer section for template found: %v" [])) :=
  ⟨(templates_and_the_guard sampleEnv ["example.org"] [] ⟨["IN", "A"], [["authority", "x"]]⟩
      {} 1 1 ["example.org."] _ rfl rfl rfl (Or.inr (Or.inl (by decide)))).1
      (Or.inr (Or.inl (by decide))),
   (templates_and_the_guard sampleEnv ["example.org"] []
      ⟨["IN", "A"], [["additional", "x"], ["rcode", "NXDOMAIN"]]⟩
      {} 1 1 ["example.org."] _ rfl rfl rfl (Or.inr (Or.inr (by decide)))).1
      (Or.inr (Or.inr (by decide))),
   ((templates_and_the_guard sampleEnv ["example.org"] [] ⟨["IN", "A"], [["additional", "x"]]⟩
      {} 1 1 ["example.org."] _ rfl rfl rfl (Or.inr (Or.inr (by decide)))).2
      ⟨rfl, rfl, rfl⟩).2.2⟩

/-- C2: a block with no `answer`, no `authority` and no `additional` directive
whose response code is success (it has no `rcode` directive, or its last one
names the success code) makes `templateParse` return an error, and the rules
returned are those of the blocks before it: none is appended for the block. -/
theorem empty_rule_is_rejected (env : Env Re Tm) (keys : List String) (pre post : List Block)
    (b : Block)
    (hno : ∀ d ∈ directives b.body,
      d.key ≠ "answer" ∧ d.key ≠ "authority" ∧ d.key ≠ "additional")
    (hrc : ∀ d, ((directives b.body).filter (fun d => d.key = "rcode")).getLast? = some d →
      ∀ val ∈ d.args, env.StringToRcode val = some RcodeSuccess) :
    (∃ e, (templateParse env ⟨keys, pre ++ b :: post⟩).2 = some e) ∧
      (templateParse env ⟨keys, pre ++ b :: post⟩).1.Templates =
        (templateParse env ⟨keys, pre⟩).1.Templates := by
  obtain ⟨e, he⟩ := compile_error_of_empty env keys b
    (fun d hd => ⟨(hno d hd).1, (hno d hd).2.1⟩) hrc
  exact templateParse_of_error env keys pre post b e he

/-- C2, at the block `template IN A { rcode NOERROR }` that follows the block
`template IN A { answer x }`. -/
theorem empty_rule_is_rejected_witness :
    (∃ e, (templateParse sampleEnv ⟨["example.org"],
        [⟨["IN", "A"], [["answer", "x"]]⟩] ++ ⟨["IN", "A"], [["rcode", "NOERROR"]]⟩ :: []⟩).2
          = some e) ∧
      (templateParse sampleEnv ⟨["example.org"],
        [⟨["IN", "A"], [["answer", "x"]]⟩] ++ ⟨["IN", "A"], [["rcode", "NOERROR"]]⟩ :: []⟩).1.Templates
        = (templateParse sampleEnv ⟨["example.org"], [⟨["IN", "A"], [["answer", "x"]]⟩]⟩).1.Templates :=
  empty_rule_is_rejected sampleEnv ["example.org"] [⟨["IN", "A"], [["answer", "x"]]⟩] []
    ⟨["IN", "A"], [["rcode", "NOERROR"]]⟩ (by decide)
    (by
      intro d hd val hval
      simp [directives, lineDirectives] at hd
      subst hd
      simp at hval
      subst hval
      rfl)

/-- C3: when each of the n blocks of a configuration compiles, `templateParse`
returns no error and exactly n Rules, the i-th being the Rule the i-th block
compiles to. -/
theorem rules_in_declaration_order (env : Env Re Tm) (keys : List String) (bs : List Block)
    (h : ∀ b ∈ bs, ∃ t, compile env keys b = .ok t) :
    (templateParse env ⟨keys, bs⟩).2 = none ∧
    (templateParse env ⟨keys, bs⟩).1.Templates.length = bs.length ∧
    (templateParse env ⟨keys, bs⟩).1.Templates.map .ok = bs.map (compile env keys) ∧
    ∀ (i : Nat) (hi : i < bs.length),
      (compile env keys (bs.get ⟨i, hi⟩)).toOption = (templateParse env ⟨keys, bs⟩).1.Templates[i]? := by
  obtain ⟨ts, hts⟩ := exists_map_ok (compile env keys) bs h
  obtain ⟨h1, h2⟩ := templateParse_of_ok env keys bs ts hts
  have hlen : ts.length = bs.length := by
    have := congrArg List.length hts
    simpa using this.symm
  refine ⟨h1, by rw [h2, hlen], by rw [h2, hts], ?_⟩
  intro i hi
  rw [h2]
  have h3 : (bs.map (compile env keys))[i]? = (ts.map Except.ok)[i]? := by rw [hts]
  simp only [List.getElem?_map] at h3
  have h4 : bs[i]? = some (bs.get ⟨i, hi⟩) := by simp
  rw [h4] at h3
  cases hti : ts[i]? with
  | none => rw [hti] at h3; simp at h3
  | some t =>
    rw [hti] at h3
    simp only [Option.map_some', Option.some.injEq] at h3
    rw [h3]
    rfl

/-- C3, at the blocks `template IN A { answer x }` and
`template IN AAAA { rcode NXDOMAIN }`. -/
theorem rules_in_declaration_order_witness :
    (templateParse sampleEnv ⟨["example.org"],
      [⟨["IN", "A"], [["answer", "x"]]⟩, ⟨["IN", "AAAA"], [["rcode", "NXDOMAIN"]]⟩]⟩).2 = none ∧
    (templateParse sampleEnv ⟨["example.org"],
      [⟨["IN", "A"], [["answer", "x"]]⟩, ⟨["IN", "AAAA"], [["rcode", "NXDOMAIN"]]⟩]⟩).1.Templates.length
      = 2 :=
  have h := rules_in_declaration_order sampleEnv ["example.org"]
    [⟨["IN", "A"], [["answer", "x"]]⟩, ⟨["IN", "AAAA"], [["rcode", "NXDOMAIN"]]⟩]
    (by
      intro b hb
      simp only [List.mem_cons, List.mem_singleton, List.not_mem_nil, or_false] at hb
      rcases hb with rfl | rfl
      · exact ⟨_, rfl⟩
      · exact ⟨_, rfl⟩)
  ⟨h.1, h.2.1⟩

/-- C4: when a block has a `match` argument that is no regular expression, or
a `match-clients` token other than `any` that is no CIDR, `templateParse`
returns an error and the rules returned are those the blocks before that block
left: exactly their Rules when they all compile, and none for the block. -/
theorem bad_pattern_is_rejected (env : Env Re Tm) (keys : List String) (pre post : List Block)
    (b : Block)
    (hbad : ∃ d ∈ directives b.body, ∃ a ∈ d.args,
      (d.key = "match" ∧ ∃ e, env.Compile a = .error e) ∨
      (d.key = "match-clients" ∧ ToLower a ≠ "any" ∧ ∃ e, ParseCIDR env a = .error e)) :
    (∃ e, (templateParse env ⟨keys, pre ++ b :: post⟩).2 = some e) ∧
    (templateParse env ⟨keys, pre ++ b :: post⟩).1.Templates =
      (templateParse env ⟨keys, pre⟩).1.Templates ∧
    ∀ ts : List (template Re Tm), pre.map (compile env keys) = ts.map .ok →
      (templateParse env ⟨keys, pre ++ b :: post⟩).1.Templates = ts := by
  obtain ⟨d, hd, a, ha, hcase⟩ := hbad
  obtain ⟨key, args⟩ := d
  have hstep : ∀ s, ∃ e, step env ⟨key, args⟩ s = .error e := by
    intro s
    rcases hcase with ⟨hk, he⟩ | ⟨hk, hany, he⟩
    · simp only at hk
      subst hk
      exact step_match_error env args a ha he s
    · simp only at hk
      subst hk
      exact step_clients_error env args a ha hany he s
  obtain ⟨e, he⟩ := compile_error_of_step env keys b ⟨key, args⟩ hd hstep
  obtain ⟨h1, h2⟩ := templateParse_of_error env keys pre post b e he
  refine ⟨h1, h2, ?_⟩
  intro ts hts
  rw [h2, (templateParse_of_ok env keys pre ts hts).2]

/-- C4, at the block `template IN A { match ( ; answer x }` that follows the
block `template IN A { answer x }`. -/
theorem bad_pattern_is_rejected_witness :
    (∃ e, (templateParse sampleEnv ⟨["example.org"], [⟨["IN", "A"], [["answer", "x"]]⟩] ++
        ⟨["IN", "A"], [["match", "("], ["answer", "x"]]⟩ :: []⟩).2 = some e) ∧
    (templateParse sampleEnv ⟨["example.org"], [⟨["IN", "A"], [["answer", "x"]]⟩] ++
        ⟨["IN", "A"], [["match", "("], ["answer", "x"]]⟩ :: []⟩).1.Templates.length = 1 :=
  have h := bad_pattern_is_rejected sampleEnv ["example.org"] [⟨["IN", "A"], [["answer", "x"]]⟩] []
    ⟨["IN", "A"], [["match", "("], ["answer", "x"]]⟩
    ⟨⟨"match", ["("]⟩, by decide, "(", by decide, Or.inl ⟨rfl, _, rfl⟩⟩
  ⟨h.1, by rw [h.2.1]; rfl⟩

/-- C5 (what the code does): the matcher of a Rule compiled from a block with
no `match-clients` directive holds the single network 0.0.0.0/0; it contains
every IPv4 address and no IPv6 address. -/
theorem default_matcher_is_ipv4_only (env : Env Re Tm) (keys : List String) (b : Block)
    (t : template Re Tm) (hc : compile env keys b = .ok t)
    (hno : ∀ d ∈ directives b.body, d.key ≠ "match-clients") :
    t.ranger.entries = [anyNet] ∧ (∀ a, t.ranger.Contains (.v4 a) = true) ∧
      (∀ a, t.ranger.Contains (.v6 a) = false) := by
  rw [compile_ranger_default env keys b t hc hno]
  refine ⟨rfl, ?_, ?_⟩
  · intro a
    have h : a % 2 ^ 32 / 2 ^ 32 = 0 := Nat.div_eq_of_lt (Nat.mod_lt a (by norm_num))
    simp [Ranger.Contains, IPNet.Contains, anyNet, h]
  · intro a
    simp [Ranger.Contains, IPNet.Contains, anyNet]

/-- C5, at the block `template IN AAAA { answer x }` and the client address
2001:db8::1: the Rule compiles and its matcher does not contain the address. -/
theorem default_matcher_is_ipv4_only_witness :
    ∃ t, compile sampleEnv ["example.org"] ⟨["IN", "AAAA"], [["answer", "x"]]⟩ = .ok t ∧
      t.ranger.entries = [anyNet] ∧
      t.ranger.Contains (.v6 0x20010db8000000000000000000000001) = false :=
  ⟨_, rfl,
    (default_matcher_is_ipv4_only sampleEnv ["example.org"] ⟨["IN", "AAAA"], [["answer", "x"]]⟩
      _ rfl (by decide)).1,
    (default_matcher_is_ipv4_only sampleEnv ["example.org"] ⟨["IN", "AAAA"], [["answer", "x"]]⟩
      _ rfl (by decide)).2.2 _⟩

/-- C6 (what the code does): for a block with `match-clients` directives that
compiles, the networks its tokens parse to (by `net.ParseCIDR`, `any` standing
for 0.0.0.0/0) are collected in `matchClients` and inserted into the local copy
`ranger` only; the matcher stored in the Rule stays empty and contains no
address. -/
theorem configured_prefixes_miss_matcher (env : Env Re Tm) (keys : List String) (b : Block)
    (t : template Re Tm) (hc : compile env keys b = .ok t)
    (hmc : ∃ d ∈ directives b.body, d.key = "match-clients") :
    t.ranger.entries = [] ∧ (∀ a, t.ranger.Contains a = false) ∧
    ∃ cls qtype zones s, header env keys b.args = .ok (cls, qtype, zones) ∧
      body env b.body { t := { qclass := cls, qtype := qtype, zones := zones } } = .ok s ∧
      s.matchClients ≠ [] ∧
      (argsOf "match-clients" (directives b.body)).map
        (fun tok => ParseCIDR env (if ToLower tok = "any" then "0.0.0.0/0" else tok))
          = s.matchClients.map .ok ∧
      ∀ n, n ∈ (filledCopy s.t s.matchClients).entries ↔ n ∈ s.matchClients := by
  obtain ⟨d, hd, hk⟩ := hmc
  obtain ⟨cls0, qtype0, zones0, s0, -, hrun0, -⟩ := compile_ok env keys b t hc
  have hargs := run_clients_args env _ _ _ hrun0 d hd hk
  have hne := argsOf_ne_nil "match-clients" _ d hd hk hargs
  obtain ⟨hr, cls, qtype, zones, s, hh, hb, hnets, hmap⟩ :=
    compile_ranger_configured env keys b t hc hne
  refine ⟨by rw [hr], fun a => by rw [hr]; rfl, cls, qtype, zones, s, hh, hb, hnets, hmap, ?_⟩
  intro n
  have hb' := hb
  rw [body_eq_run] at hb'
  have hsr := (run_const env _ _ _ hb').2.2.2
  rw [filledCopy, mem_foldl_Insert, hsr]
  simp

/-- C6, at the block `template IN A { match-clients 10.0.0.0/8 ; answer x }` and
the client address 10.1.2.3: the configured network contains the address, the
Rule compiles, and its matcher is empty and does not contain it. -/
theorem configured_prefixes_miss_matcher_witness :
    (sampleEnv.parseCIDR "10.0.0.0/8").toOption.map (fun n => n.Contains (.v4 167838211))
      = some true ∧
    ∃ t, compile sampleEnv ["example.org"]
        ⟨["IN", "A"], [["match-clients", "10.0.0.0/8"], ["answer", "x"]]⟩ = .ok t ∧
      t.ranger.entries = [] ∧ t.ranger.Contains (.v4 167838211) = false :=
  ⟨by decide, _, rfl,
    (configured_prefixes_miss_matcher sampleEnv ["example.org"]
      ⟨["IN", "A"], [["match-clients", "10.0.0.0/8"], ["answer", "x"]]⟩ _ rfl
      ⟨⟨"match-clients", ["10.0.0.0/8"]⟩, by decide, rfl⟩).1,
    (configured_prefixes_miss_matcher sampleEnv ["example.org"]
      ⟨["IN", "A"], [["match-clients", "10.0.0.0/8"], ["answer", "x"]]⟩ _ rfl
      ⟨⟨"match-clients", ["10.0.0.0/8"]⟩, by decide, rfl⟩).2.1 _⟩

/-- C7 (what the code does): for a block without `match-clients` that compiles
and a token that lower-cases to `any`, the Rule of the block holds the single
network 0.0.0.0/0 in its matcher, while the block with the line
`match-clients <token>` added anywhere compiles to the same Rule but with an
empty matcher: the network goes into the local copy `ranger` only. -/
theorem match_clients_any_empties_matcher (env : Env Re Tm) (keys : List String)
    (args : List String) (l1 l2 : List (List String)) (tok : String) (t : template Re Tm)
    (htok : ToLower tok = "any")
    (hno : ∀ d ∈ directives (l1 ++ l2), d.key ≠ "match-clients")
    (hc : compile env keys ⟨args, l1 ++ l2⟩ = .ok t) :
    t.ranger.entries = [anyNet] ∧
    compile env keys ⟨args, l1 ++ ["match-clients", tok] :: l2⟩ =
      .ok { t with ranger := ⟨[]⟩ } := by
  refine ⟨by rw [compile_ranger_default env keys _ t hc hno], ?_⟩
  obtain ⟨cls, qtype, zones, s, hh, hrun, hfin⟩ := compile_ok env keys _ t hc
  simp only at hh hrun
  have hms : s.matchClients = [] := run_matchClients_frame env _ _ _ hrun hno
  have hsr : s.t.ranger = ⟨[]⟩ := (run_const env _ _ _ hrun).2.2.2
  rw [directives_append] at hno
  rw [directives_append, run_append] at hrun
  have hline : lineDirectives ["match-clients", tok] = [⟨"match-clients", [tok]⟩] := by
    rw [lineDirectives.eq_def]; simp
  unfold compile
  simp only [hh, rule, body_eq_run, directives_insert, hline, run_append]
  cases h1 : run env (directives l1) { t := { qclass := cls, qtype := qtype, zones := zones } } with
  | error e => rw [h1] at hrun; cases hrun
  | ok s1 =>
    rw [h1] at hrun
    simp only at hrun ⊢
    have hm1 : s1.matchClients = [] :=
      run_matchClients_frame env _ _ _ h1 (fun d hd => hno d (List.mem_append_left _ hd))
    obtain ⟨t1, m1⟩ := s1
    simp only at hm1
    subst hm1
    simp only [List.singleton_append, run, step_clients_any env tok htok, List.nil_append]
    rw [run_mc env (directives l2) t1 [anyNet] [] (fun d hd => hno d (List.mem_append_right _ hd)),
      hrun]
    simp only
    obtain ⟨ts, ms⟩ := s
    simp only at hms hsr
    subst hms
    rw [finish_eq] at hfin ⊢
    by_cases hg : ts.answer.length = 0 ∧ ts.authority.length = 0 ∧ ts.rcode = RcodeSuccess
    · rw [if_pos hg] at hfin
      cases hfin
    · simp only at hfin ⊢
      rw [if_neg hg] at hfin ⊢
      injection hfin with hfin
      subst hfin
      have hwr := (withRegex_fields env ts).2.2.2.2.2.2.2.2.2
      simp only at hwr
      generalize (if ts.regex.length = 0 then
        { ts with regex := ts.regex ++ [env.MustCompile ".*"] } else ts) = tr at hwr ⊢
      rw [hsr] at hwr
      obtain ⟨q1, q2, q3, q4, q5, q6, q7, q8, q9, q10, q11⟩ := tr
      simp only at hwr
      subst hwr
      simp [fillRanger, ParseCIDR, filledCopy]

/-- C7, at the block `template IN A { answer x }` and the line
`match-clients ANY` put before its only line: the first Rule's matcher holds
0.0.0.0/0, the second Rule's matcher is empty. -/
theorem match_clients_any_empties_matcher_witness :
    ∃ t t', compile sampleEnv ["example.org"] ⟨["IN", "A"], [] ++ [["answer", "x"]]⟩ = .ok t ∧
      compile sampleEnv ["example.org"]
        ⟨["IN", "A"], [] ++ ["match-clients", "ANY"] :: [["answer", "x"]]⟩ = .ok t' ∧
      t.ranger.entries = [anyNet] ∧ t'.ranger.entries = [] ∧
      t.ranger.Contains (.v4 167838211) = true ∧ t'.ranger.Contains (.v4 167838211) = false :=
  ⟨_, _, rfl,
    (match_clients_any_empties_matcher sampleEnv ["example.org"] ["IN", "A"] [] [["answer", "x"]]
      "ANY" _ (by decide) (by decide) rfl).2,
    (match_clients_any_empties_matcher sampleEnv ["example.org"] ["IN", "A"] [] [["answer", "x"]]
      "ANY" _ (by decide) (by decide) rfl).1, rfl, by decide, by decide⟩

/-- C8: for a block that compiles, the Rule's regex list is the one-element
list of the catch-all pattern `.*` when the block has no `match` directive, and
otherwise the compiled arguments of its `match` directives in declaration
order, nothing added. -/
theorem regex_list_of_block (env : Env Re Tm) (keys : List String) (b : Block)
    (t : template Re Tm) (hc : compile env keys b = .ok t) :
    ((∀ d ∈ directives b.body, d.key ≠ "match") → t.regex = [env.MustCompile ".*"]) ∧
    ((∃ d ∈ directives b.body, d.key = "match") →
      t.regex.map .ok = (argsOf "match" (directives b.body)).map env.Compile) := by
  obtain ⟨cls, qtype, zones, s, -, hrun, hfin⟩ := compile_ok env keys b t hc
  obtain ⟨rs, hmap, hrs⟩ := run_regex env _ _ _ hrun
  simp only [List.nil_append] at hrs
  rw [finish_regex env s t hfin, hrs]
  constructor
  · intro hno
    rw [argsOf_eq_nil "match" _ hno] at hmap
    have : rs = [] := by simpa using hmap.symm
    simp [this]
  · rintro ⟨d, hd, hk⟩
    obtain ⟨s1, s2, hs⟩ := run_mem_step env _ _ _ hrun d hd
    have hargs : d.args ≠ [] := by
      rcases step_ok env d s1 s2 hs with ⟨-, ha, -⟩ | ⟨hk', -⟩ | ⟨hk', -⟩ | ⟨hk', -⟩ | ⟨hk', -⟩ |
        ⟨hk', -⟩ | ⟨hk', -⟩ | ⟨hk', -⟩
      all_goals first
        | exact ha
        | (rw [hk] at hk'; exact absurd hk' (by decide))
    have hne := argsOf_ne_nil "match" _ d hd hk hargs
    have hrs0 : ¬ rs.length = 0 := by
      intro h0
      rw [List.length_eq_zero.mp h0] at hmap
      simp only [List.map_nil, List.map_eq_nil_iff] at hmap
      exact hne hmap
    rw [if_neg hrs0, hmap]

/-- C8, at the blocks `template IN A { answer x }` and
`template IN A { match a b ; answer x ; match c }`. -/
theorem regex_list_of_block_witness :
    (∃ t, compile sampleEnv ["example.org"] ⟨["IN", "A"], [["answer", "x"]]⟩ = .ok t ∧
      t.regex = [".*"]) ∧
    (∃ t, compile sampleEnv ["example.org"]
        ⟨["IN", "A"], [["match", "a", "b"], ["answer", "x"], ["match", "c"]]⟩ = .ok t ∧
      t.regex.map .ok = ["a", "b", "c"].map sampleEnv.Compile) :=
  ⟨⟨_, rfl, (regex_list_of_block sampleEnv ["example.org"] ⟨["IN", "A"], [["answer", "x"]]⟩ _ rfl).1
      (by decide)⟩,
   ⟨_, rfl, (regex_list_of_block sampleEnv ["example.org"]
      ⟨["IN", "A"], [["match", "a", "b"], ["answer", "x"], ["match", "c"]]⟩ _ rfl).2
      ⟨⟨"match", ["a", "b"]⟩, by decide, rfl⟩⟩⟩

/-- C9: the zone list of a compiled Rule is the element-wise normal form, order
kept, of the zone tokens after the class and type tokens when there are any,
and of the server block keys otherwise; hence a block whose zone tokens are the
same up to letter case and a trailing dot compiles to the same zone list. -/
theorem zones_are_normalized (env : Env Re Tm) (keys : List String) (b : Block)
    (t : template Re Tm) (cv tv : String) (zs : List String)
    (hc : compile env keys b = .ok t) (ha : b.args = cv :: tv :: zs) :
    t.zones = (if zs = [] then keys else zs).map Normalize ∧
    ∀ (b' : Block) (t' : template Re Tm) (cv' tv' : String) (zs' : List String),
      compile env keys b' = .ok t' → b'.args = cv' :: tv' :: zs' →
      List.Forall₂ (fun z z' =>
        ToLower z' = ToLower z ∨
        (ToLower z' = ToLower (z ++ ".") ∧ z.data.getLast? ≠ some '.') ∨
        (ToLower z = ToLower (z' ++ ".") ∧ z'.data.getLast? ≠ some '.')) zs zs' →
      t'.zones = t.zones := by
  have hz : ∀ (b : Block) (t : template Re Tm) (cv tv : String) (zs : List String),
      compile env keys b = .ok t → b.args = cv :: tv :: zs →
      t.zones = (if zs = [] then keys else zs).map Normalize := by
    intro b t cv tv zs hc ha
    obtain ⟨cv1, tv1, zs1, ha1, -, -, hzones⟩ := header_ok env keys _ _ _ _ (compile_header env keys b t hc)
    rw [ha] at ha1
    simp only [List.cons.injEq] at ha1
    obtain ⟨-, -, rfl⟩ := ha1
    rw [hzones]
    by_cases h0 : zs = []
    · simp [h0]
    · have : ¬ zs.length = 0 := by simpa using h0
      rw [if_neg h0, if_neg this]
  refine ⟨hz b t cv tv zs hc ha, ?_⟩
  intro b' t' cv' tv' zs' hc' ha' hrel
  rw [hz b t cv tv zs hc ha, hz b' t' cv' tv' zs' hc' ha']
  have hmap : zs'.map Normalize = zs.map Normalize := map_Normalize_of_rel zs zs' hrel
  have hlen : zs'.length = zs.length := by
    have := congrArg List.length hmap
    simpa using this
  by_cases h0 : zs = []
  · have h0' : zs' = [] := by
      apply List.length_eq_zero.mp
      rw [hlen, h0]
      rfl
    rw [if_pos h0, if_pos h0']
  · have h0' : zs' ≠ [] := by
      intro h
      apply h0
      apply List.length_eq_zero.mp
      rw [← hlen, h]
      rfl
    rw [if_neg h0, if_neg h0', hmap]

/-- C9, at the blocks `template IN A example.org Sub.Example.ORG { answer x }`
and `template IN A Example.Org. sub.example.org. { answer x }`. -/
theorem zones_are_normalized_witness :
    (∃ t, compile sampleEnv ["."] ⟨["IN", "A", "example.org", "Sub.Example.ORG"], [["answer", "x"]]⟩
        = .ok t ∧ t.zones = ["example.org.", "sub.example.org."]) ∧
    (∃ t t', compile sampleEnv ["."] ⟨["IN", "A", "example.org", "Sub.Example.ORG"], [["answer", "x"]]⟩
        = .ok t ∧
      compile sampleEnv ["."] ⟨["IN", "A", "Example.Org.", "sub.example.org."], [["answer", "x"]]⟩
        = .ok t' ∧ t'.zones = t.zones) :=
  ⟨⟨_, rfl, (zones_are_normalized sampleEnv ["."]
      ⟨["IN", "A", "example.org", "Sub.Example.ORG"], [["answer", "x"]]⟩ _ "IN" "A"
      ["example.org", "Sub.Example.ORG"] rfl rfl).1.trans (by decide)⟩,
   ⟨_, _, rfl, rfl, (zones_are_normalized sampleEnv ["."]
      ⟨["IN", "A", "example.org", "Sub.Example.ORG"], [["answer", "x"]]⟩ _ "IN" "A"
      ["example.org", "Sub.Example.ORG"] rfl rfl).2
      ⟨["IN", "A", "Example.Org.", "sub.example.org."], [["answer", "x"]]⟩ _ "IN" "A"
      ["Example.Org.", "sub.example.org."] rfl rfl
      (List.Forall₂.cons (Or.inr (Or.inl ⟨by decide, by decide⟩))
        (List.Forall₂.cons (Or.inr (Or.inl ⟨by decide, by decide⟩)) List.Forall₂.nil))⟩⟩

/-- C10: a block that lacks the class or the type token, or whose first token
is no class name, or whose second token is no type name, makes `templateParse`
return an error with no Rule appended for the block; and when both tokens
resolve in a block that compiles, the Rule's class and type are the values the
vocabularies give for them. -/
theorem header_tokens_must_resolve (env : Env Re Tm) (keys : List String) (pre post : List Block)
    (b : Block) :
    ((b.args.length < 2 ∨ (∃ cv rest, b.args = cv :: rest ∧ env.StringToClass cv = none) ∨
        (∃ cv tv zs, b.args = cv :: tv :: zs ∧ env.StringToType tv = none)) →
      (∃ e, (templateParse env ⟨keys, pre ++ b :: post⟩).2 = some e) ∧
        (templateParse env ⟨keys, pre ++ b :: post⟩).1.Templates =
          (templateParse env ⟨keys, pre⟩).1.Templates) ∧
    (∀ (t : template Re Tm) (cv tv : String) (zs : List String) (cls qtype : Nat),
      compile env keys b = .ok t → b.args = cv :: tv :: zs →
      env.StringToClass cv = some cls → env.StringToType tv = some qtype →
      t.qclass = cls ∧ t.qtype = qtype) := by
  constructor
  · intro hbad
    have herr : ∃ e, compile env keys b = .error e := by
      cases hc : compile env keys b with
      | error e => exact ⟨e, rfl⟩
      | ok t =>
        exfalso
        obtain ⟨cv, tv, zs, ha, hcl, hty, -⟩ :=
          header_ok env keys _ _ _ _ (compile_header env keys b t hc)
        rcases hbad with hlen | ⟨cv', rest, ha', hn⟩ | ⟨cv', tv', zs', ha', hn⟩
        · rw [ha] at hlen
          simp only [List.length_cons] at hlen
          omega
        · rw [ha] at ha'
          simp only [List.cons.injEq] at ha'
          rw [← ha'.1, hcl] at hn
          cases hn
        · rw [ha] at ha'
          simp only [List.cons.injEq] at ha'
          rw [← ha'.2.1, hty] at hn
          cases hn
    obtain ⟨e, he⟩ := herr
    exact templateParse_of_error env keys pre post b e he
  · intro t cv tv zs cls qtype hc ha hcl hty
    obtain ⟨cv1, tv1, zs1, ha1, hcl1, hty1, -⟩ :=
      header_ok env keys _ _ _ _ (compile_header env keys b t hc)
    rw [ha] at ha1
    simp only [List.cons.injEq] at ha1
    obtain ⟨rfl, rfl, -⟩ := ha1
    rw [hcl] at hcl1
    rw [hty] at hty1
    exact ⟨(Option.some.inj hcl1).symm, (Option.some.inj hty1).symm⟩

/-- C10, at the block `template CH A { answer x }` (no such class in the sample
vocabulary) after `template IN A { answer x }`, and at the block
`template IN AAAA { answer x }`. -/
theorem header_tokens_must_resolve_witness :
    ((∃ e, (templateParse sampleEnv ⟨["example.org"], [⟨["IN", "A"], [["answer", "x"]]⟩] ++
        ⟨["CH", "A"], [["answer", "x"]]⟩ :: []⟩).2 = some e) ∧
      (templateParse sampleEnv ⟨["example.org"], [⟨["IN", "A"], [["answer", "x"]]⟩] ++
        ⟨["CH", "A"], [["answer", "x"]]⟩ :: []⟩).1.Templates =
        (templateParse sampleEnv ⟨["example.org"], [⟨["IN", "A"], [["answer", "x"]]⟩]⟩).1.Templates) ∧
    (∃ t, compile sampleEnv ["example.org"] ⟨["IN", "AAAA"], [["answer", "x"]]⟩ = .ok t ∧
      t.qclass = 1 ∧ t.qtype = 28) :=
  ⟨(header_tokens_must_resolve sampleEnv ["example.org"] [⟨["IN", "A"], [["answer", "x"]]⟩] []
      ⟨["CH", "A"], [["answer", "x"]]⟩).1 (Or.inr (Or.inl ⟨"CH", ["A"], rfl, rfl⟩)),
   ⟨_, rfl, (header_tokens_must_resolve sampleEnv ["example.org"] [] []
      ⟨["IN", "AAAA"], [["answer", "x"]]⟩).2 _ "IN" "AAAA" [] 1 28 rfl rfl rfl rfl⟩⟩

/-- C11: an `rcode` directive whose argument is no response-code name makes
`templateParse` return an error; the response code of a compiled Rule is the
value of the block's last `rcode` directive, and success when the block has
none; and a block whose header and directives are valid and that has no record
template but a response code other than success compiles. -/
theorem rcode_of_block (env : Env Re Tm) (keys : List String) (pre post : List Block)
    (b : Block) :
    ((∃ d ∈ directives b.body, d.key = "rcode" ∧
        ∃ val rest, d.args = val :: rest ∧ env.StringToRcode val = none) →
      ∃ e, (templateParse env ⟨keys, pre ++ b :: post⟩).2 = some e) ∧
    (∀ t, compile env keys b = .ok t →
      match ((directives b.body).filter (fun d => d.key = "rcode")).getLast? with
      | none => t.rcode = RcodeSuccess
      | some d => ∃ val rest, d.args = val :: rest ∧ env.StringToRcode val = some t.rcode) ∧
    (∀ (cls qtype : Nat) (zones : List String) (s : St Re Tm),
      header env keys b.args = .ok (cls, qtype, zones) →
      body env b.body { t := { qclass := cls, qtype := qtype, zones := zones } } = .ok s →
      s.t.answer = [] → s.t.authority = [] → s.t.additional = [] → s.t.rcode ≠ RcodeSuccess →
      ∃ t, compile env keys b = .ok t ∧ t.rcode = s.t.rcode ∧
        t.answer = [] ∧ t.authority = [] ∧ t.additional = []) := by
  refine ⟨?_, ?_, ?_⟩
  · rintro ⟨d, hd, hk, val, rest, hargs, hbad⟩
    obtain ⟨key, args⟩ := d
    simp only at hk hargs
    subst hk
    subst hargs
    obtain ⟨e, he⟩ := compile_error_of_step env keys b ⟨"rcode", val :: rest⟩ hd
      (step_rcode_error env val rest hbad)
    exact (templateParse_of_error env keys pre post b e he).1
  · intro t hc
    obtain ⟨cls, qtype, zones, s, -, hrun, hfin⟩ := compile_ok env keys b t hc
    have hr := run_rcode_last env _ _ _ hrun
    have ht : t.rcode = s.t.rcode := (finish_fields env s t hfin).2.2.2.2.2.2.1
    rw [ht]
    exact hr
  · intro cls qtype zones s hh hb ha hau had hr
    have hc : compile env keys b = finish env s := by
      simp [compile, hh, rule, hb]
    have hne : ¬ (s.t.answer.length = 0 ∧ s.t.authority.length = 0 ∧ s.t.rcode = RcodeSuccess) :=
      fun h => hr h.2.2
    rw [finish_eq, if_neg hne] at hc
    obtain ⟨-, -, -, h4, h5, h6, h7, -, -⟩ := finish_fields env s _ (by rw [finish_eq, if_neg hne])
    exact ⟨_, hc, h7, h4.trans ha, h6.trans hau, h5.trans had⟩

/-- C11, at the blocks `template IN A { rcode BADCODE }`,
`template IN A { rcode SERVFAIL ; rcode NXDOMAIN }` and
`template IN A { rcode NXDOMAIN }`. -/
theorem rcode_of_block_witness :
    (∃ e, (templateParse sampleEnv
      ⟨["example.org"], [] ++ ⟨["IN", "A"], [["rcode", "BADCODE"]]⟩ :: []⟩).2 = some e) ∧
    (∃ t, compile sampleEnv ["example.org"]
        ⟨["IN", "A"], [["rcode", "SERVFAIL"], ["rcode", "NXDOMAIN"]]⟩ = .ok t ∧
      sampleEnv.StringToRcode "NXDOMAIN" = some t.rcode) ∧
    (∃ t, compile sampleEnv ["example.org"] ⟨["IN", "A"], [["rcode", "NXDOMAIN"]]⟩ = .ok t ∧
      t.rcode = 3 ∧ t.answer = [] ∧ t.authority = [] ∧ t.additional = []) :=
  ⟨(rcode_of_block sampleEnv ["example.org"] [] [] ⟨["IN", "A"], [["rcode", "BADCODE"]]⟩).1
      ⟨⟨"rcode", ["BADCODE"]⟩, by decide, rfl, "BADCODE", [], rfl, rfl⟩,
   ⟨_, rfl, by
      obtain ⟨val, rest, hv, hs⟩ := (rcode_of_block sampleEnv ["example.org"] [] []
        ⟨["IN", "A"], [["rcode", "SERVFAIL"], ["rcode", "NXDOMAIN"]]⟩).2.1 _ rfl
      cases hv
      exact hs⟩,
   (rcode_of_block sampleEnv ["example.org"] [] [] ⟨["IN", "A"], [["rcode", "NXDOMAIN"]]⟩).2.2
      1 1 ["example.org."] _ rfl rfl rfl rfl rfl (by decide)⟩

/-- C12: in a compiled Rule each section's template list is the compiled
arguments of the directives of that section's keyword, in declaration order
and with nothing from another keyword; and an argument of such a directive
that is no template makes `templateParse` return an error. -/
theorem templates_of_block (env : Env Re Tm) (keys : List String) (pre post : List Block)
    (b : Block) :
    (∀ t, compile env keys b = .ok t →
      t.answer.map .ok = (argsOf "answer" (directives b.body)).map (env.Parse "answer") ∧
      t.authority.map .ok =
        (argsOf "authority" (directives b.body)).map (env.Parse "authority") ∧
      t.additional.map .ok =
        (argsOf "additional" (directives b.body)).map (env.Parse "additional")) ∧
    ((∃ d ∈ directives b.body, ∃ a ∈ d.args,
        (d.key = "answer" ∧ ∃ e, env.Parse "answer" a = .error e) ∨
        (d.key = "authority" ∧ ∃ e, env.Parse "authority" a = .error e) ∨
        (d.key = "additional" ∧ ∃ e, env.Parse "additional" a = .error e)) →
      ∃ e, (templateParse env ⟨keys, pre ++ b :: post⟩).2 = some e) := by
  constructor
  · intro t hc
    obtain ⟨cls, qtype, zones, s, -, hrun, hfin⟩ := compile_ok env keys b t hc
    obtain ⟨-, -, -, h4, h5, h6, -, -, -⟩ := finish_fields env s t hfin
    obtain ⟨xs, hxs, hs⟩ := run_answer env _ _ _ hrun
    obtain ⟨ys, hys, hs'⟩ := run_authority env _ _ _ hrun
    obtain ⟨zs, hzs, hs''⟩ := run_additional env _ _ _ hrun
    simp only [List.nil_append] at hs hs' hs''
    rw [h4, h5, h6, hs, hs', hs'', hxs, hys, hzs]
    exact ⟨rfl, rfl, rfl⟩
  · rintro ⟨d, hd, a, ha, hcase⟩
    obtain ⟨key, args⟩ := d
    have hstep : ∀ s, ∃ e, step env ⟨key, args⟩ s = .error e := by
      intro s
      rcases hcase with ⟨hk, he⟩ | ⟨hk, he⟩ | ⟨hk, he⟩
      · simp only at hk
        subst hk
        exact step_answer_error env args a ha he s
      · simp only at hk
        subst hk
        exact step_authority_error env args a ha he s
      · simp only at hk
        subst hk
        exact step_additional_error env args a ha he s
    obtain ⟨e, he⟩ := compile_error_of_step env keys b ⟨key, args⟩ hd hstep
    exact (templateParse_of_error env keys pre post b e he).1

/-- C12, at the block
`template IN A { answer a b ; additional c ; authority d ; answer e }` and at
the block `template IN A { answer a ; authority "" }`, whose second template
is empty. -/
theorem templates_of_block_witness :
    (∃ t, compile sampleEnv ["example.org"] ⟨["IN", "A"],
        [["answer", "a", "b"], ["additional", "c"], ["authority", "d"], ["answer", "e"]]⟩ = .ok t ∧
      t.answer.map .ok = ["a", "b", "e"].map (sampleEnv.Parse "answer") ∧
      t.authority.map .ok = ["d"].map (sampleEnv.Parse "authority") ∧
      t.additional.map .ok = ["c"].map (sampleEnv.Parse "additional")) ∧
    (∃ e, (templateParse sampleEnv ⟨["example.org"],
      [] ++ ⟨["IN", "A"], [["answer", "a"], ["authority", ""]]⟩ :: []⟩).2 = some e) :=
  ⟨⟨_, rfl, (templates_of_block sampleEnv ["example.org"] [] [] ⟨["IN", "A"],
        [["answer", "a", "b"], ["additional", "c"], ["authority", "d"], ["answer", "e"]]⟩).1 _ rfl⟩,
   (templates_of_block sampleEnv ["example.org"] [] []
      ⟨["IN", "A"], [["answer", "a"], ["authority", ""]]⟩).2
      ⟨⟨"authority", [""]⟩, by decide, "", by decide, Or.inr (Or.inl ⟨rfl, _, rfl⟩)⟩⟩

/-- C13: when `templateParse` returns an error, `setupTemplate` returns an
error and leaves the server configuration as it was (no handler is registered);
when `templateParse` and `setupMetrics` both succeed, `setupTemplate` returns no
error and registers exactly one more handler, the one `templateParse` returned,
whose rule list holds the Rule of every block. -/
theorem setup_registers_complete_handler (env : Env Re Tm) (setupMetrics : Controller → Option Err)
    (c : Controller) (cfg : Config Re Tm) :
    ((∃ e, (templateParse env c).2 = some e) →
      (∃ e, (setupTemplate env setupMetrics c cfg).2 = some e) ∧
        (setupTemplate env setupMetrics c cfg).1.Plugin = cfg.Plugin) ∧
    ((templateParse env c).2 = none → setupMetrics c = none →
      (setupTemplate env setupMetrics c cfg).2 = none ∧
      (setupTemplate env setupMetrics c cfg).1.Plugin = cfg.Plugin ++ [(templateParse env c).1] ∧
      (templateParse env c).1.Templates.map .ok =
        c.blocks.map (compile env c.ServerBlockKeys)) := by
  constructor
  · rintro ⟨e, he⟩
    unfold setupTemplate
    rcases hp : templateParse env c with ⟨handler, o⟩
    rw [hp] at he
    simp only at he
    subst he
    exact ⟨⟨_, rfl⟩, rfl⟩
  · intro hnone hm
    refine ⟨?_, ?_, templateParse_full env c hnone⟩
    · unfold setupTemplate
      rcases hp : templateParse env c with ⟨handler, o⟩
      rw [hp] at hnone
      simp only at hnone
      subst hnone
      simp [hm]
    · unfold setupTemplate
      rcases hp : templateParse env c with ⟨handler, o⟩
      rw [hp] at hnone
      simp only at hnone
      subst hnone
      simp [hm, Config.AddPlugin]

/-- C13, at the configuration with the blocks `template IN A { answer x }` and
`template IN A { match ( }` (an error), and at the configuration with the first
block only. -/
theorem setup_registers_complete_handler_witness :
    ((∃ e, (setupTemplate sampleEnv (fun _ => none) ⟨["example.org"],
        [⟨["IN", "A"], [["answer", "x"]]⟩, ⟨["IN", "A"], [["match", "("]]⟩]⟩ ⟨[]⟩).2 = some e) ∧
      (setupTemplate sampleEnv (fun _ => none) ⟨["example.org"],
        [⟨["IN", "A"], [["answer", "x"]]⟩, ⟨["IN", "A"], [["match", "("]]⟩]⟩ ⟨[]⟩).1.Plugin = []) ∧
    ((setupTemplate sampleEnv (fun _ => none) ⟨["example.org"],
        [⟨["IN", "A"], [["answer", "x"]]⟩]⟩ ⟨[]⟩).2 = none ∧
      (setupTemplate sampleEnv (fun _ => none) ⟨["example.org"],
        [⟨["IN", "A"], [["answer", "x"]]⟩]⟩ ⟨[]⟩).1.Plugin =
        [] ++ [(templateParse sampleEnv ⟨["example.org"], [⟨["IN", "A"], [["answer", "x"]]⟩]⟩).1]) :=
  ⟨(setup_registers_complete_handler sampleEnv (fun _ => none) ⟨["example.org"],
      [⟨["IN", "A"], [["answer", "x"]]⟩, ⟨["IN", "A"], [["match", "("]]⟩]⟩ ⟨[]⟩).1 ⟨_, rfl⟩,
   have h := (setup_registers_complete_handler sampleEnv (fun _ => none) ⟨["example.org"],
      [⟨["IN", "A"], [["answer", "x"]]⟩]⟩ ⟨[]⟩).2 rfl rfl
   ⟨h.1, h.2.1⟩⟩

/-- C14: the fallthrough zone set of a compiled Rule is empty when the block
has no `fallthrough` directive; otherwise it is what `SetZonesFromArgs` yields
on the arguments of the last `fallthrough` directive, and, the method setting
the zones from its arguments whatever the set held, on these arguments alone:
what earlier `fallthrough` directives set is overwritten. -/
theorem fallthrough_of_block (env : Env Re Tm) (keys : List String) (b : Block)
    (t : template Re Tm) (hc : compile env keys b = .ok t) :
    match ((directives b.body).filter (fun d => d.key = "fallthrough")).getLast? with
    | none => t.fall = []
    | some d => (∃ before, t.fall = env.SetZonesFromArgs before d.args) ∧
        (SetsFromArgs env → t.fall = env.SetZonesFromArgs [] d.args) := by
  obtain ⟨cls, qtype, zones, s, -, hrun, hfin⟩ := compile_ok env keys b t hc
  have hr := run_fall_last env _ _ _ hrun
  have ht : t.fall = s.t.fall := (finish_fields env s t hfin).2.2.2.2.2.2.2.1
  rw [ht]
  cases hl : ((directives b.body).filter (fun d => d.key = "fallthrough")).getLast? with
  | none => rw [hl] at hr; exact hr
  | some d =>
    rw [hl] at hr
    obtain ⟨before, hb⟩ := hr
    exact ⟨⟨before, hb⟩, fun hset => by rw [hb]; exact hset _ _ _⟩

/-- C14, at the blocks `template IN A { answer x }` and
`template IN A { fallthrough a.org ; answer x ; fallthrough B.org c.org }`. -/
theorem fallthrough_of_block_witness :
    (∃ t, compile sampleEnv ["example.org"] ⟨["IN", "A"], [["answer", "x"]]⟩ = .ok t ∧
      t.fall = []) ∧
    (∃ t, compile sampleEnv ["example.org"] ⟨["IN", "A"],
        [["fallthrough", "a.org"], ["answer", "x"], ["fallthrough", "B.org", "c.org"]]⟩ = .ok t ∧
      t.fall = sampleEnv.SetZonesFromArgs [] ["B.org", "c.org"]) :=
  ⟨⟨_, rfl, fallthrough_of_block sampleEnv ["example.org"] ⟨["IN", "A"], [["answer", "x"]]⟩ _ rfl⟩,
   ⟨_, rfl, (fallthrough_of_block sampleEnv ["example.org"] ⟨["IN", "A"],
      [["fallthrough", "a.org"], ["answer", "x"], ["fallthrough", "B.org", "c.org"]]⟩ _ rfl).2
      (fun _ _ _ => rfl)⟩⟩

/-- C15: a compiled Rule carries an upstream capability exactly when its block
has an `upstream` directive; the arguments after `upstream` are ignored: the
block compiles to the same result with them as without them, and the directive
itself succeeds whatever they are. -/
theorem upstream_of_block (env : Env Re Tm) (keys : List String) (head : List String)
    (l1 l2 : List (List String)) (args : List String) :
    (∀ (b : Block) (t : template Re Tm), compile env keys b = .ok t →
      (t.upstream.isSome = true ↔ ∃ d ∈ directives b.body, d.key = "upstream")) ∧
    compile env keys ⟨head, l1 ++ ("upstream" :: args) :: l2⟩ =
      compile env keys ⟨head, l1 ++ ["upstream"] :: l2⟩ ∧
    ∀ s : St Re Tm, directive env ("upstream" :: args) s =
      .ok { s with t := { s.t with upstream := some {} } } := by
  refine ⟨?_, ?_, ?_⟩
  · intro b t hc
    obtain ⟨cls, qtype, zones, s, -, hrun, hfin⟩ := compile_ok env keys b t hc
    have ht : t.upstream = s.t.upstream := (finish_fields env s t hfin).2.2.2.2.2.2.2.2
    rw [ht, run_upstream env _ _ _ hrun]
    simp
  · have hrun : ∀ (a : List String) (s : St Re Tm),
        run env (directives (l1 ++ ("upstream" :: a) :: l2)) s =
          match run env (directives l1) s with
          | .error e => .error e
          | .ok s1 => run env (directives l2) { s1 with t := { s1.t with upstream := some {} } } := by
      intro a s
      rw [directives_insert, lineDirectives_single "upstream" a (by decide), run_append]
      cases run env (directives l1) s with
      | error e => rfl
      | ok s1 =>
        simp only [List.singleton_append, run, step_upstream]
        rfl
    unfold compile
    cases header env keys head with
    | error e => rfl
    | ok r =>
      obtain ⟨cls, qtype, zones⟩ := r
      simp only [rule, body_eq_run, hrun]
  · intro s
    rw [← step_eq env "upstream" args s (by decide), step_upstream]

/-- C15, at the blocks `template IN A { answer x ; upstream 8.8.8.8 extra }`
and `template IN A { answer x }`. -/
theorem upstream_of_block_witness :
    (∃ t, compile sampleEnv ["example.org"]
        ⟨["IN", "A"], [["answer", "x"], ["upstream", "8.8.8.8", "extra"]]⟩ = .ok t ∧
      t.upstream.isSome = true) ∧
    (∃ t, compile sampleEnv ["example.org"] ⟨["IN", "A"], [["answer", "x"]]⟩ = .ok t ∧
      ¬ t.upstream.isSome = true) :=
  ⟨⟨_, rfl, ((upstream_of_block sampleEnv ["example.org"] [] [] [] []).1
      ⟨["IN", "A"], [["answer", "x"], ["upstream", "8.8.8.8", "extra"]]⟩ _ rfl).mpr
      ⟨⟨"upstream", ["8.8.8.8", "extra"]⟩, by decide, rfl⟩⟩,
   ⟨_, rfl, fun h => by
      obtain ⟨d, hd, hk⟩ := ((upstream_of_block sampleEnv ["example.org"] [] [] [] []).1
        ⟨["IN", "A"], [["answer", "x"]]⟩ _ rfl).mp h
      revert hk
      revert d
      decide⟩⟩

/-- C16: a sub-directive whose keyword is none of `match`, `match-clients`,
`answer`, `additional`, `authority`, `rcode`, `fallthrough`, `upstream`, or one
of the first six of these without an argument, makes `templateParse` return an
error with no Rule appended for the block; a line `fallthrough` or `upstream`
without arguments does not: added anywhere to a block that compiles it leaves a
block that compiles. -/
theorem keywords_and_argument_counts (env : Env Re Tm) (keys : List String)
    (pre post : List Block) (b : Block) (head : List String) (l1 l2 : List (List String)) :
    ((∃ d ∈ directives b.body,
        (d.key ≠ "match" ∧ d.key ≠ "match-clients" ∧ d.key ≠ "answer" ∧ d.key ≠ "additional" ∧
          d.key ≠ "authority" ∧ d.key ≠ "rcode" ∧ d.key ≠ "fallthrough" ∧ d.key ≠ "upstream") ∨
        ((d.key = "match" ∨ d.key = "match-clients" ∨ d.key = "answer" ∨ d.key = "additional" ∨
          d.key = "authority" ∨ d.key = "rcode") ∧ d.args = [])) →
      (∃ e, (templateParse env ⟨keys, pre ++ b :: post⟩).2 = some e) ∧
        (templateParse env ⟨keys, pre ++ b :: post⟩).1.Templates =
          (templateParse env ⟨keys, pre⟩).1.Templates) ∧
    ((∃ t, compile env keys ⟨head, l1 ++ l2⟩ = .ok t) →
      (∃ t, compile env keys ⟨head, l1 ++ ["fallthrough"] :: l2⟩ = .ok t) ∧
      (∃ t, compile env keys ⟨head, l1 ++ ["upstream"] :: l2⟩ = .ok t)) := by
  constructor
  · rintro ⟨d, hd, hcase⟩
    have hstep : ∀ s, ∃ e, step env d s = .error e := by
      intro s
      rcases hcase with hk | ⟨hk, ha⟩
      · exact ⟨_, step_unknown_error env d s hk⟩
      · obtain ⟨key, args⟩ := d
        simp only at hk ha
        subst ha
        exact ⟨_, step_noargs_error env key s hk⟩
    obtain ⟨e, he⟩ := compile_error_of_step env keys b d hd hstep
    exact templateParse_of_error env keys pre post b e he
  · intro h
    constructor
    · exact compile_insert_ok env keys head l1 l2 ["fallthrough"] ⟨"fallthrough", []⟩
        (lineDirectives_single "fallthrough" [] (by decide))
        (fun t mc => ⟨env.SetZonesFromArgs t.fall [], t.upstream, by rw [step_fallthrough]⟩) h
    · exact compile_insert_ok env keys head l1 l2 ["upstream"] ⟨"upstream", []⟩
        (lineDirectives_single "upstream" [] (by decide))
        (fun t mc => ⟨t.fall, some {}, by rw [step_upstream]⟩) h

/-- C16, at the blocks `template IN A { answer x ; forward . }` and
`template IN A { answer }` after `template IN A { answer x }`, and at the lines
`fallthrough` and `upstream` added to `template IN A { answer x }`. -/
theorem keywords_and_argument_counts_witness :
    ((∃ e, (templateParse sampleEnv ⟨["example.org"], [⟨["IN", "A"], [["answer", "x"]]⟩] ++
        ⟨["IN", "A"], [["answer", "x"], ["forward", "."]]⟩ :: []⟩).2 = some e) ∧
      (templateParse sampleEnv ⟨["example.org"], [⟨["IN", "A"], [["answer", "x"]]⟩] ++
        ⟨["IN", "A"], [["answer", "x"], ["forward", "."]]⟩ :: []⟩).1.Templates =
        (templateParse sampleEnv ⟨["example.org"], [⟨["IN", "A"], [["answer", "x"]]⟩]⟩).1.Templates) ∧
    (∃ e, (templateParse sampleEnv ⟨["example.org"], [⟨["IN", "A"], [["answer", "x"]]⟩] ++
        ⟨["IN", "A"], [["answer"]]⟩ :: []⟩).2 = some e) ∧
    ((∃ t, compile sampleEnv ["example.org"]
        ⟨["IN", "A"], [["answer", "x"]] ++ ["fallthrough"] :: []⟩ = .ok t) ∧
      (∃ t, compile sampleEnv ["example.org"]
        ⟨["IN", "A"], [["answer", "x"]] ++ ["upstream"] :: []⟩ = .ok t)) :=
  ⟨(keywords_and_argument_counts sampleEnv ["example.org"] [⟨["IN", "A"], [["answer", "x"]]⟩] []
      ⟨["IN", "A"], [["answer", "x"], ["forward", "."]]⟩ [] [] []).1
      ⟨⟨"forward", ["."]⟩, by decide, Or.inl (by decide)⟩,
   ((keywords_and_argument_counts sampleEnv ["example.org"] [⟨["IN", "A"], [["answer", "x"]]⟩] []
      ⟨["IN", "A"], [["answer"]]⟩ [] [] []).1
      ⟨⟨"answer", []⟩, by decide, Or.inr ⟨by decide, rfl⟩⟩).1,
   (keywords_and_argument_counts sampleEnv ["example.org"] [] [] ⟨[], []⟩ ["IN", "A"]
      [["answer", "x"]] []).2 ⟨_, rfl⟩⟩

/-- C17: when `templateParse` returns no error, the zones of the handler are
the zone lists of its Rules, one after the other in the order of the Rules,
duplicates kept. -/
theorem handler_zones_are_rule_zones (env : Env Re Tm) (c : Controller)
    (h : (templateParse env c).2 = none) :
    (templateParse env c).1.Zones =
      ((templateParse env c).1.Templates.map (fun t => t.zones)).flatten :=
  blocks_zones env c.ServerBlockKeys c.blocks { Zones := [], Templates := [] } rfl h

/-- C17, at the blocks `template IN A a.org b.org { answer x }` and
`template IN AAAA b.org { answer x }`. -/
theorem handler_zones_are_rule_zones_witness :
    (templateParse sampleEnv ⟨["example.org"],
      [⟨["IN", "A", "a.org", "b.org"], [["answer", "x"]]⟩,
       ⟨["IN", "AAAA", "b.org"], [["answer", "x"]]⟩]⟩).1.Zones = ["a.org.", "b.org.", "b.org."] :=
  (handler_zones_are_rule_zones sampleEnv ⟨["example.org"],
      [⟨["IN", "A", "a.org", "b.org"], [["answer", "x"]]⟩,
       ⟨["IN", "AAAA", "b.org"], [["answer", "x"]]⟩]⟩ rfl).trans (by decide)

/-- C18: with the slices in memory and `c.ServerBlockKeys` at a valid address,
`templateParse` leaves the elements of the keys (and of every slice that
existed) as they were; it returns what the function computes from the keys as
they were at the start, whatever the number of blocks; and every block without
zone tokens that compiles gets the same zone list, the normalized keys. -/
theorem server_block_keys_unchanged (env : Env Re Tm) (keys : Nat) (bs : List Block)
    (σ : Store) (hk : keys < σ.length) :
    Store.read (templateParseS env keys bs σ).1 keys = Store.read σ keys ∧
    (∀ a, a < σ.length → Store.read (templateParseS env keys bs σ).1 a = Store.read σ a) ∧
    (templateParseS env keys bs σ).2 = templateParse env ⟨Store.read σ keys, bs⟩ ∧
    ∀ b ∈ bs, ∀ (t : template Re Tm) (cv tv : String),
      compile env (Store.read σ keys) b = .ok t → b.args = [cv, tv] →
      t.zones = (Store.read σ keys).map Normalize := by
  obtain ⟨h1, -, h3⟩ := blocksS_spec env keys bs σ { Zones := [], Templates := [] } hk
  refine ⟨h3 keys hk, h3, h1, ?_⟩
  intro b _ t cv tv hc ha
  obtain ⟨cv1, tv1, zs1, ha1, -, -, hz⟩ :=
    header_ok env _ _ _ _ _ (compile_header env _ b t hc)
  rw [ha] at ha1
  simp only [List.cons.injEq] at ha1
  obtain ⟨-, -, hzs⟩ := ha1
  rw [hz, ← hzs]
  rfl

/-- C18, at the keys `Example.ORG` and the blocks `template IN A { answer x }`
and `template IN AAAA { answer x }`: the keys stay un-normalized and both Rules
get the zone list `example.org.`. -/
theorem server_block_keys_unchanged_witness :
    Store.read (templateParseS sampleEnv 0
      [⟨["IN", "A"], [["answer", "x"]]⟩, ⟨["IN", "AAAA"], [["answer", "x"]]⟩]
      [["Example.ORG"]]).1 0 = ["Example.ORG"] ∧
    ((templateParseS sampleEnv 0
      [⟨["IN", "A"], [["answer", "x"]]⟩, ⟨["IN", "AAAA"], [["answer", "x"]]⟩]
      [["Example.ORG"]]).2.1.Templates.map (fun t => t.zones)) =
      [["example.org."], ["example.org."]] :=
  have h := server_block_keys_unchanged sampleEnv 0
    [⟨["IN", "A"], [["answer", "x"]]⟩, ⟨["IN", "AAAA"], [["answer", "x"]]⟩]
    [["Example.ORG"]] (by decide)
  ⟨h.1, by rw [h.2.2.1]; decide⟩

end Template
